import Mathlib

/-!
Verification of the ArbitrageEdge core against its specification.

The development shallowly embeds the two core components of the repository:

* the arbitrage-detection engine (`calculateArbitrage`,
  `calculate2WayArbitrage`, `calculate3WayArbitrage` from
  backend/calculator/arbitrage.js), modelled as pure functions over `ℚ`;
* the staleness-gated refresh coordinator (`needsFreshData`,
  `getOrScrapeData`, `waitForScrape` from backend/scrapers/on-demand.js),
  modelled both as a big-step function of one call and as a small-step
  interleaving transition system for concurrent callers;
* the match-id generators (`generateMatchId` from
  backend/scrapers/oddschecker.js and the on-demand variant that appends a
  time-derived suffix), modelled over Lean strings.

JavaScript numbers are modelled by `ℚ`.  The one place where IEEE behaviour
matters — `1 / 0 = Infinity` inside the 2-way calculator — is modelled
explicitly by a guard that returns `none` whenever a best price is zero,
because an infinite implied probability always fails the
`totalImpliedProb < 1.0` test; this is noted at the definition.
-/

namespace ArbEdge

/-- One row of the odds table: one bookmaker's prices for one event
(fields odds1, odds2 and the optional draw_odds of the JS object;
a JS null/undefined draw price is `none`). -/
structure OddsRow where
  bookmaker : String
  team1 : String
  team2 : String
  odds1 : ℚ
  odds2 : ℚ
  draw_odds : Option ℚ
deriving Repr, DecidableEq

/-- Accumulator of the best-price loop: the JS sources initialise it as
`{ odds: 0, bookmaker: null }`. -/
structure BestOdd where
  odds : ℚ
  bookmaker : Option String
deriving Repr, DecidableEq

/-- Loop body for outcome 1: `if (odd.odds1 > bestOdds1.odds) bestOdds1 = { … }`. -/
def bestStep1 (b : BestOdd) (o : OddsRow) : BestOdd :=
  if o.odds1 > b.odds then { odds := o.odds1, bookmaker := some o.bookmaker } else b

/-- Loop body for outcome 2: `if (odd.odds2 > bestOdds2.odds) bestOdds2 = { … }`. -/
def bestStep2 (b : BestOdd) (o : OddsRow) : BestOdd :=
  if o.odds2 > b.odds then { odds := o.odds2, bookmaker := some o.bookmaker } else b

/-- Loop body for the draw outcome:
`if (odd.draw_odds && odd.draw_odds > bestDraw.odds) bestDraw = { … }`.
JS truthiness of a number is "present and nonzero", hence the `d ≠ 0` conjunct. -/
def bestStepDraw (b : BestOdd) (o : OddsRow) : BestOdd :=
  match o.draw_odds with
  | none => b
  | some d => if d ≠ 0 ∧ d > b.odds then { odds := d, bookmaker := some o.bookmaker } else b

/-- Best (maximum seen-so-far) price for outcome 1 across the quote set. -/
def bestOdds1 (odds : List OddsRow) : BestOdd :=
  odds.foldl bestStep1 { odds := 0, bookmaker := none }

/-- Best price for outcome 2 across the quote set. -/
def bestOdds2 (odds : List OddsRow) : BestOdd :=
  odds.foldl bestStep2 { odds := 0, bookmaker := none }

/-- Best draw price across the quote set. -/
def bestDrawOdds (odds : List OddsRow) : BestOdd :=
  odds.foldl bestStepDraw { odds := 0, bookmaker := none }

/-- Dispatch test of calculateArbitrage:
`odds.some(o => o.draw_odds && o.draw_odds > 0)`. -/
def hasDrawOdds (odds : List OddsRow) : Bool :=
  odds.any fun o =>
    match o.draw_odds with
    | none => false
    | some d => decide (d ≠ 0) && decide (d > 0)

/-- Rounding to two decimal places, half away from zero — the idealised
semantics of `parseFloat(x.toFixed(2))` stated in the specification. -/
def round2 (q : ℚ) : ℚ :=
  (((if q ≥ 0 then ⌊q * 100 + 1/2⌋ else -⌊-(q * 100) + 1/2⌋) : ℤ) : ℚ) / 100

/-- One leg of a detected opportunity (`{ outcome, bookmaker, odds, stake_pct }`). -/
structure Bet where
  outcome : String
  bookmaker : Option String
  odds : ℚ
  stake_pct : ℚ
deriving Repr, DecidableEq

/-- The engine's output record.  The JS object also carries a constant
`exists: true` field, omitted here since it carries no information. -/
structure Arbitrage where
  profit_percentage : ℚ
  bets : List Bet
deriving Repr, DecidableEq

/-- Team name of the first quote, `odds[0].team1`; the callers guarantee the
list is nonempty (calculateArbitrage rejects lists shorter than 2). -/
def headTeam1 (odds : List OddsRow) : String := ((odds.head?).map OddsRow.team1).getD ""

/-- Team name of the first quote, `odds[0].team2`. -/
def headTeam2 (odds : List OddsRow) : String := ((odds.head?).map OddsRow.team2).getD ""

/-- calculate2WayArbitrage from backend/calculator/arbitrage.js.

The JS code computes `impliedProb = 1 / best.odds` where `1 / 0 = Infinity`,
and then rejects with `null` when `totalImpliedProb >= 1.0`; an infinite
implied probability therefore always takes the `null` branch.  The guard
`b1.odds = 0 ∨ b2.odds = 0` models exactly that behaviour, after which the
arithmetic is the finite JS arithmetic. -/
def calculate2WayArbitrage (odds : List OddsRow) : Option Arbitrage :=
  let b1 := bestOdds1 odds
  let b2 := bestOdds2 odds
  if b1.odds = 0 ∨ b2.odds = 0 then none
  else
    let impliedProb1 := 1 / b1.odds
    let impliedProb2 := 1 / b2.odds
    let totalImpliedProb := impliedProb1 + impliedProb2
    if totalImpliedProb ≥ 1 then none
    else
      let profitPercentage := (1 / totalImpliedProb - 1) * 100
      let stake1Pct := impliedProb1 / totalImpliedProb * 100
      let stake2Pct := impliedProb2 / totalImpliedProb * 100
      some
        { profit_percentage := round2 profitPercentage
          bets :=
            [ { outcome := headTeam1 odds, bookmaker := b1.bookmaker
                odds := b1.odds, stake_pct := round2 stake1Pct }
            , { outcome := headTeam2 odds, bookmaker := b2.bookmaker
                odds := b2.odds, stake_pct := round2 stake2Pct } ] }

/-- calculate3WayArbitrage from backend/calculator/arbitrage.js.  Unlike the
2-way function, the source checks explicitly that all three best prices are
nonzero before dividing. -/
def calculate3WayArbitrage (odds : List OddsRow) : Option Arbitrage :=
  let b1 := bestOdds1 odds
  let b2 := bestOdds2 odds
  let bd := bestDrawOdds odds
  if b1.odds = 0 ∨ b2.odds = 0 ∨ bd.odds = 0 then none
  else
    let impliedProb1 := 1 / b1.odds
    let impliedProb2 := 1 / b2.odds
    let impliedProbDraw := 1 / bd.odds
    let totalImpliedProb := impliedProb1 + impliedProb2 + impliedProbDraw
    if totalImpliedProb ≥ 1 then none
    else
      let profitPercentage := (1 / totalImpliedProb - 1) * 100
      let stake1Pct := impliedProb1 / totalImpliedProb * 100
      let stake2Pct := impliedProb2 / totalImpliedProb * 100
      let stakeDrawPct := impliedProbDraw / totalImpliedProb * 100
      some
        { profit_percentage := round2 profitPercentage
          bets :=
            [ { outcome := headTeam1 odds, bookmaker := b1.bookmaker
                odds := b1.odds, stake_pct := round2 stake1Pct }
            , { outcome := "Draw", bookmaker := bd.bookmaker
                odds := bd.odds, stake_pct := round2 stakeDrawPct }
            , { outcome := headTeam2 odds, bookmaker := b2.bookmaker
                odds := b2.odds, stake_pct := round2 stake2Pct } ] }

/-- calculateArbitrage from backend/calculator/arbitrage.js: reject quote sets
shorter than two, then dispatch on the presence of a truthy positive draw
price anywhere in the set. -/
def calculateArbitrage (odds : List OddsRow) : Option Arbitrage :=
  if odds.length < 2 then none
  else if hasDrawOdds odds then calculate3WayArbitrage odds
  else calculate2WayArbitrage odds

/-- Sum over the event's outcomes of the reciprocal best price, as the claims
phrase it: two outcomes normally, three when the set carries a truthy positive
draw price.  The value `none` stands for the JS `Infinity` that `1 / 0`
produces when some outcome has no positive price. -/
def outcomesTotal (odds : List OddsRow) : Option ℚ :=
  if hasDrawOdds odds then
    if (bestOdds1 odds).odds = 0 ∨ (bestOdds2 odds).odds = 0 ∨ (bestDrawOdds odds).odds = 0
    then none
    else some (1 / (bestOdds1 odds).odds + 1 / (bestOdds2 odds).odds + 1 / (bestDrawOdds odds).odds)
  else
    if (bestOdds1 odds).odds = 0 ∨ (bestOdds2 odds).odds = 0 then none
    else some (1 / (bestOdds1 odds).odds + 1 / (bestOdds2 odds).odds)

/-- Sum of the stake percentages over the legs of an opportunity. -/
def stakeSum (a : Arbitrage) : ℚ := (a.bets.map Bet.stake_pct).sum

/-- Total implied probability of the two-outcome branch (finite arithmetic;
meaningful when both best prices are nonzero). -/
def twoWayTotal (odds : List OddsRow) : ℚ :=
  1 / (bestOdds1 odds).odds + 1 / (bestOdds2 odds).odds

/-- Total implied probability of the three-outcome branch. -/
def threeWayTotal (odds : List OddsRow) : ℚ :=
  1 / (bestOdds1 odds).odds + 1 / (bestOdds2 odds).odds + 1 / (bestDrawOdds odds).odds

/-- The record `calculate2WayArbitrage` builds in its arbitrage branch. -/
def twoWayResult (odds : List OddsRow) : Arbitrage :=
  { profit_percentage := round2 ((1 / twoWayTotal odds - 1) * 100)
    bets :=
      [ { outcome := headTeam1 odds, bookmaker := (bestOdds1 odds).bookmaker
          odds := (bestOdds1 odds).odds
          stake_pct := round2 (1 / (bestOdds1 odds).odds / twoWayTotal odds * 100) }
      , { outcome := headTeam2 odds, bookmaker := (bestOdds2 odds).bookmaker
          odds := (bestOdds2 odds).odds
          stake_pct := round2 (1 / (bestOdds2 odds).odds / twoWayTotal odds * 100) } ] }

/-- The record `calculate3WayArbitrage` builds in its arbitrage branch. -/
def threeWayResult (odds : List OddsRow) : Arbitrage :=
  { profit_percentage := round2 ((1 / threeWayTotal odds - 1) * 100)
    bets :=
      [ { outcome := headTeam1 odds, bookmaker := (bestOdds1 odds).bookmaker
          odds := (bestOdds1 odds).odds
          stake_pct := round2 (1 / (bestOdds1 odds).odds / threeWayTotal odds * 100) }
      , { outcome := "Draw", bookmaker := (bestDrawOdds odds).bookmaker
          odds := (bestDrawOdds odds).odds
          stake_pct := round2 (1 / (bestDrawOdds odds).odds / threeWayTotal odds * 100) }
      , { outcome := headTeam2 odds, bookmaker := (bestOdds2 odds).bookmaker
          odds := (bestOdds2 odds).odds
          stake_pct := round2 (1 / (bestOdds2 odds).odds / threeWayTotal odds * 100) } ] }

/-- Two-bookmaker, two-outcome quote set used to instantiate several claims:
best prices 2.1 and 2.2 give total implied probability 215/231 < 1. -/
def exC1 : List OddsRow :=
  [ { bookmaker := "B1", team1 := "T1", team2 := "T2", odds1 := 21/10, odds2 := 2, draw_odds := none }
  , { bookmaker := "B2", team1 := "T1", team2 := "T2", odds1 := 2, odds2 := 11/5, draw_odds := none } ]

/-- The opportunity the engine returns on `exC1` (profit 7.44, stakes
51.16 and 48.84). -/
def exC1Result : Arbitrage :=
  { profit_percentage := 186/25
    bets :=
      [ { outcome := "T1", bookmaker := some "B1", odds := 21/10, stake_pct := 1279/25 }
      , { outcome := "T2", bookmaker := some "B2", odds := 11/5, stake_pct := 1221/25 } ] }

/-- Quote set with a marginal edge: best prices 2.00002 on both sides give an
unrounded profit of 0.001 percent, which rounds to 0.00. -/
def exC4 : List OddsRow :=
  [ { bookmaker := "B1", team1 := "T1", team2 := "T2"
      odds1 := 100001/50000, odds2 := 100001/50000, draw_odds := none }
  , { bookmaker := "B2", team1 := "T1", team2 := "T2", odds1 := 2, odds2 := 2, draw_odds := none } ]

/-- Quote set whose draw prices are positive but not greater than 1: the
engine still routes it to the three-outcome calculator. -/
def exC6 : List OddsRow :=
  [ { bookmaker := "B1", team1 := "T1", team2 := "T2", odds1 := 3, odds2 := 3, draw_odds := some 1 }
  , { bookmaker := "B2", team1 := "T1", team2 := "T2", odds1 := 3, odds2 := 3, draw_odds := some 1 } ]

/-- The opportunity the engine returns on `exC4`: rounded profit 0.00. -/
def exC4Result : Arbitrage :=
  { profit_percentage := 0
    bets :=
      [ { outcome := "T1", bookmaker := some "B1", odds := 100001/50000, stake_pct := 50 }
      , { outcome := "T2", bookmaker := some "B1", odds := 100001/50000, stake_pct := 50 } ] }

/-- Quote set whose first-side prices are all in (0, 1]: the engine still
selects 0.5 as the best price for that side. -/
def exC5 : List OddsRow :=
  [ { bookmaker := "B1", team1 := "T1", team2 := "T2", odds1 := 1/2, odds2 := 2, draw_odds := none }
  , { bookmaker := "B2", team1 := "T1", team2 := "T2", odds1 := 2/5, odds2 := 3, draw_odds := none } ]

/-- Quote set in which no bookmaker reports a positive price for side two. -/
def exC10 : List OddsRow :=
  [ { bookmaker := "B1", team1 := "T1", team2 := "T2", odds1 := 2, odds2 := 0, draw_odds := none }
  , { bookmaker := "B2", team1 := "T1", team2 := "T2", odds1 := 3, odds2 := -1, draw_odds := none } ]

/-- Quote set in which no bookmaker reports a positive price for side one. -/
def exC10A : List OddsRow :=
  [ { bookmaker := "B1", team1 := "T1", team2 := "T2", odds1 := 0, odds2 := 2, draw_odds := none }
  , { bookmaker := "B2", team1 := "T1", team2 := "T2", odds1 := -1, odds2 := 3, draw_odds := none } ]

/-! Refresh coordinator (backend/scrapers/on-demand.js), big-step view of a
single call.  The module-level mutable state is `lastScrapeTime` (null at
process start) and `isScraping`; times are natural numbers of milliseconds.
The clock is monotone, so the truncated subtraction `now - t` agrees with the
JS signed subtraction wherever the comparison matters. -/

/-- Module-level cache status of on-demand.js. -/
structure CacheState where
  lastScrapeTime : Option ℕ
  isScraping : Bool
deriving Repr, DecidableEq

/-- CACHE_DURATION = 30 * 60 * 1000 milliseconds. -/
def CACHE_DURATION : ℕ := 30 * 60 * 1000

/-- needsFreshData: true when no scrape has happened yet, or the time since
the last scrape strictly exceeds the cache window. -/
def needsFreshData (s : CacheState) (now : ℕ) : Bool :=
  match s.lastScrapeTime with
  | none => true
  | some t => decide (now - t > CACHE_DURATION)

/-- Outcome of the awaited collaborators within one refresh attempt:
scrapeAllSports may throw, or return a number of quotes (0 is the
empty-result path, in which storeOdds is never reached); when quotes exist,
storeOdds may throw.  detectArbitrageOpportunities catches its own errors
and therefore never throws into getOrScrapeData. -/
inductive RunOutcome where
  | fetchErr : RunOutcome
  | fetched (oddsCount : ℕ) (storeOk : Bool) : RunOutcome
deriving Repr, DecidableEq

/-- Result of getOrScrapeData as seen by its caller. -/
inductive ScrapeResult where
  | cached (cacheAgeMin : ℕ) : ScrapeResult
  | waited : ScrapeResult
  | emptyErr : ScrapeResult
  | ok (oddsCount : ℕ) : ScrapeResult
  | thrown : ScrapeResult
deriving Repr, DecidableEq

/-- Final state, caller-visible result, and whether this call invoked the
fetch collaborator scrapeAllSports. -/
structure CallOut where
  state : CacheState
  result : ScrapeResult
  fetchInvoked : Bool
deriving Repr, DecidableEq

/-- Math.round((now - lastScrapeTime) / 1000 / 60) over the naturals:
round-half-up of ms/60000. -/
def cacheAgeMinutes (ms : ℕ) : ℕ := (2 * ms + 60000) / 120000

/-- getOrScrapeData as a function of the entry time `now`, the completion
time `nowEnd` written into lastScrapeTime on success, and the collaborators'
behaviour `env`.  The transient `isScraping := true` set before the awaits is
visible only to concurrent callers (modelled separately as a transition
system); its net effect within one call is cleared on every exit path. -/
def getOrScrapeData (s : CacheState) (now nowEnd : ℕ) (env : RunOutcome) : CallOut :=
  if needsFreshData s now = false then
    { state := s
      result := .cached (cacheAgeMinutes (now - s.lastScrapeTime.getD 0))
      fetchInvoked := false }
  else if s.isScraping then
    { state := s, result := .waited, fetchInvoked := false }
  else
    match env with
    | .fetchErr =>
        { state := { s with isScraping := false }, result := .thrown, fetchInvoked := true }
    | .fetched 0 _ =>
        { state := { s with isScraping := false }, result := .emptyErr, fetchInvoked := true }
    | .fetched (n+1) false =>
        { state := { s with isScraping := false }, result := .thrown, fetchInvoked := true }
    | .fetched (n+1) true =>
        { state := { lastScrapeTime := some nowEnd, isScraping := false }
          result := .ok (n+1), fetchInvoked := true }

/-! Match-id generation.  oddschecker.js builds
`match_${normalized}` from the two team names; the on-demand scraper's copy
additionally appends `Date.now().toString().slice(-6)`.  Strings are handled
at the character-list level so that the definitions evaluate inside the
kernel; Char.toLower models JS toLowerCase on the ASCII range and
Char.isWhitespace models the core of the JS \s class. -/

/-- One pass of `.replace(/\s+/g, '-')`: each maximal whitespace run becomes
a single dash.  The flag records whether the previous character was part of a
whitespace run. -/
def replaceWsRuns : List Char → Bool → List Char
  | [], _ => []
  | c :: rest, inRun =>
    if c.isWhitespace then
      if inRun then replaceWsRuns rest true
      else '-' :: replaceWsRuns rest true
    else c :: replaceWsRuns rest false

/-- Team-name normalisation `t.toLowerCase().replace(/\s+/g, '-')`. -/
def normalizeTeam (t : String) : String :=
  String.mk (replaceWsRuns (t.data.map Char.toLower) false)

/-- JS string "less than" (code-unit lexicographic), the comparison behind
the default Array.prototype.sort comparator; Lean chars are code points,
which agree with UTF-16 ordering on the basic multilingual plane. -/
def lexLt : List Char → List Char → Bool
  | [], [] => false
  | [], _ :: _ => true
  | _ :: _, [] => false
  | a :: as, b :: bs =>
    if a.toNat < b.toNat then true
    else if b.toNat < a.toNat then false
    else lexLt as bs

/-- The `[team1, team2].map(normalize).sort().join('_')` part shared by both
generators. -/
def normalizedPair (team1 team2 : String) : String :=
  let n1 := normalizeTeam team1
  let n2 := normalizeTeam team2
  if lexLt n2.data n1.data then n2 ++ "_" ++ n1 else n1 ++ "_" ++ n2

/-- generateMatchId of backend/scrapers/oddschecker.js: a pure function of
the normalised unordered team pair. -/
def generateMatchId (team1 team2 : String) : String :=
  "match_" ++ normalizedPair team1 team2

/-- `Date.now().toString().slice(-6)`: the last six characters of the decimal
representation (the whole string when shorter). -/
def last6 (n : ℕ) : String :=
  let l := (Nat.repr n).data
  String.mk (if l.length ≤ 6 then l else l.drop (l.length - 6))

/-- generateMatchId of the on-demand scraper copy: the same normalised pair
with a time-derived suffix appended. -/
def generateMatchIdOnDemand (team1 team2 : String) (nowMs : ℕ) : String :=
  "match_" ++ normalizedPair team1 team2 ++ "_" ++ last6 nowMs

/-! Interleaving model of concurrent getOrScrapeData callers.  Each caller is
a process whose program counter marks the suspension points of the JS
function (the awaited fetch, store and detection passes, and the poll loop of
waitForScrape); the platform event loop picks which process steps next.
`fetches` counts invocations of the fetch collaborator scrapeAllSports
globally and `pfetch` counts them per caller. -/

/-- Program counter of one caller between suspension points. -/
inductive PC where
  | entry : PC
  | waiting : PC
  | fetching : PC
  | storing : PC
  | detecting : PC
  | done (r : ScrapeResult) : PC
deriving Repr, DecidableEq

/-- The caller currently holds the in-flight refresh: it is between setting
and clearing isScraping. -/
def inRegion : PC → Bool
  | .fetching => true
  | .storing => true
  | .detecting => true
  | _ => false

/-- Completed calls that went through the refresh path (successfully, with
an empty fetch, or by throwing). -/
def isRefreshExit : PC → Bool
  | .done .emptyErr => true
  | .done .thrown => true
  | .done (.ok _) => true
  | _ => false

/-- Global configuration: the shared module state of on-demand.js, the
clock, every caller's program counter, and fetch-invocation counters. -/
structure Sys (n : ℕ) where
  last : Option ℕ
  scraping : Bool
  now : ℕ
  pcs : Fin n → PC
  fetches : ℕ
  pfetch : Fin n → ℕ

/-- Staleness of a timestamp, as needsFreshData computes it (the in-flight
flag plays no role in the staleness test). -/
def staleAt (l : Option ℕ) (now : ℕ) : Bool :=
  needsFreshData { lastScrapeTime := l, isScraping := false } now

/-- One interleaving step.  The entry steps mirror the synchronous prefix of
getOrScrapeData (the staleness and in-flight checks run atomically up to the
first await, and setting isScraping is part of that prefix); fetch, store
and detect steps mirror the awaits; waitDone covers both a cleared flag and
the 60-second poll bound, which return the same result; tick advances the
clock. -/
inductive Step {n : ℕ} : Sys n → Sys n → Prop where
  | tick (s : Sys n) (d : ℕ) :
      Step s { s with now := s.now + d }
  | entryFresh (s : Sys n) (i : Fin n) (hpc : s.pcs i = .entry)
      (hf : needsFreshData { lastScrapeTime := s.last, isScraping := s.scraping } s.now = false) :
      Step s { s with pcs := Function.update s.pcs i (PC.done (ScrapeResult.cached (cacheAgeMinutes (s.now - s.last.getD 0)))) }
  | entryWait (s : Sys n) (i : Fin n) (hpc : s.pcs i = .entry)
      (hf : needsFreshData { lastScrapeTime := s.last, isScraping := s.scraping } s.now = true)
      (hs : s.scraping = true) :
      Step s { s with pcs := Function.update s.pcs i .waiting }
  | entryFetch (s : Sys n) (i : Fin n) (hpc : s.pcs i = .entry)
      (hf : needsFreshData { lastScrapeTime := s.last, isScraping := s.scraping } s.now = true)
      (hs : s.scraping = false) :
      Step s { s with scraping := true
                      pcs := Function.update s.pcs i .fetching
                      fetches := s.fetches + 1
                      pfetch := Function.update s.pfetch i (s.pfetch i + 1) }
  | waitPoll (s : Sys n) (i : Fin n) (hpc : s.pcs i = .waiting) (hs : s.scraping = true) :
      Step s s
  | waitDone (s : Sys n) (i : Fin n) (hpc : s.pcs i = .waiting) :
      Step s { s with pcs := Function.update s.pcs i (.done .waited) }
  | fetchOk (s : Sys n) (i : Fin n) (hpc : s.pcs i = .fetching) :
      Step s { s with pcs := Function.update s.pcs i .storing }
  | fetchEmpty (s : Sys n) (i : Fin n) (hpc : s.pcs i = .fetching) :
      Step s { s with scraping := false
                      pcs := Function.update s.pcs i (.done .emptyErr) }
  | fetchFail (s : Sys n) (i : Fin n) (hpc : s.pcs i = .fetching) :
      Step s { s with scraping := false
                      pcs := Function.update s.pcs i (.done .thrown) }
  | storeOk (s : Sys n) (i : Fin n) (hpc : s.pcs i = .storing) :
      Step s { s with pcs := Function.update s.pcs i .detecting }
  | storeFail (s : Sys n) (i : Fin n) (hpc : s.pcs i = .storing) :
      Step s { s with scraping := false
                      pcs := Function.update s.pcs i (.done .thrown) }
  | detectDone (s : Sys n) (i : Fin n) (m : ℕ) (hpc : s.pcs i = .detecting) :
      Step s { s with last := some s.now
                      scraping := false
                      pcs := Function.update s.pcs i (.done (.ok m)) }

/-- Reflexive-transitive closure of the interleaving step. -/
inductive Reach {n : ℕ} : Sys n → Sys n → Prop where
  | refl (s : Sys n) : Reach s s
  | step (s₁ s₂ s₃ : Sys n) : Reach s₁ s₂ → Step s₂ s₃ → Reach s₁ s₃

/-- A step during which no in-flight refresh completes: the burst phase of
the single-flight scenario, in which the N concurrent callers arrive. -/
def StepA {n : ℕ} (s s' : Sys n) : Prop :=
  Step s s' ∧ (s.scraping = true → s'.scraping = true)

/-- Closure of the completion-free step. -/
inductive ReachA {n : ℕ} : Sys n → Sys n → Prop where
  | refl (s : Sys n) : ReachA s s
  | step (s₁ s₂ s₃ : Sys n) : ReachA s₁ s₂ → StepA s₂ s₃ → ReachA s₁ s₃

/-- Initial configuration: n callers about to perform their entry check, no
refresh in flight, no fetch performed. -/
def initSys (n : ℕ) (l0 : Option ℕ) (t0 : ℕ) : Sys n :=
  { last := l0, scraping := false, now := t0
    pcs := fun _ => .entry, fetches := 0, pfetch := fun _ => 0 }

/-- Mutual exclusion: whoever is inside the refresh region holds the flag,
and at most one caller is inside. -/
def MutexInv {n : ℕ} (s : Sys n) : Prop :=
  (∀ i, inRegion (s.pcs i) = true → s.scraping = true) ∧
  (∀ i j, inRegion (s.pcs i) = true → inRegion (s.pcs j) = true → i = j)

/-- Per-caller accounting: a caller has invoked the fetch exactly once when
it is inside the refresh region or finished through it, and never
otherwise. -/
def CountInv {n : ℕ} (s : Sys n) : Prop :=
  ∀ i, s.pfetch i = (if inRegion (s.pcs i) || isRefreshExit (s.pcs i) then 1 else 0)

/-- Invariant of the burst phase from a stale start: either nobody has
moved, or exactly one fetch has begun and everyone else is at entry, in the
poll loop, or done waiting. -/
def BurstInv {n : ℕ} (l0 : Option ℕ) (s : Sys n) : Prop :=
  s.last = l0 ∧ staleAt l0 s.now = true ∧
  ((s.scraping = false ∧ s.fetches = 0 ∧ ∀ i, s.pcs i = PC.entry) ∨
   (s.scraping = true ∧ s.fetches = 1 ∧
     ∀ i, s.pcs i = PC.entry ∨ s.pcs i = PC.waiting ∨ s.pcs i = PC.done .waited ∨
       inRegion (s.pcs i) = true))


/-- Two concurrent callers starting with an empty cache. -/
def burstInit2 : Sys 2 := initSys 2 none 0

/-- Configuration after the first caller's entry step: it begins the fetch. -/
def burstMid : Sys 2 :=
  { burstInit2 with scraping := true
                    pcs := Function.update burstInit2.pcs 0 PC.fetching
                    fetches := burstInit2.fetches + 1
                    pfetch := Function.update burstInit2.pfetch 0 (burstInit2.pfetch 0 + 1) }

/-- Configuration after the second caller's entry step: it joins the wait. -/
def burstS1 : Sys 2 := { burstMid with pcs := Function.update burstMid.pcs 1 PC.waiting }

/-! Generic lemmas about the best-price folds.  All three loops share the
shape "update the accumulator when a valid candidate beats it"; the lemmas
are stated for an arbitrary step function with that property and later
instantiated for `bestStep1`, `bestStep2` and `bestStepDraw`. -/

/-- Each step of a best-price loop can only increase the accumulator. -/
theorem foldl_best_mono (step : BestOdd → OddsRow → BestOdd)
    (hs : ∀ b o, b.odds ≤ (step b o).odds) :
    ∀ (l : List OddsRow) (b : BestOdd), b.odds ≤ (l.foldl step b).odds := by
  intro l
  induction l with
  | nil => intro b; exact le_refl _
  | cons o t ih => intro b; exact le_trans (hs b o) (ih (step b o))

/-- A best-price fold either leaves the accumulator untouched or returns the
price and bookmaker of some quote in the list that strictly beats it. -/
theorem foldl_best_char (step : BestOdd → OddsRow → BestOdd)
    (cand : OddsRow → ℚ → Prop)
    (hs : ∀ b o, step b o = b ∨
      (b.odds < (step b o).odds ∧ cand o ((step b o).odds) ∧
        (step b o).bookmaker = some o.bookmaker)) :
    ∀ (l : List OddsRow) (b : BestOdd), l.foldl step b = b ∨
      (b.odds < (l.foldl step b).odds ∧ ∃ o ∈ l, cand o ((l.foldl step b).odds) ∧
        (l.foldl step b).bookmaker = some o.bookmaker) := by
  intro l
  induction l with
  | nil => intro b; exact Or.inl rfl
  | cons o t ih =>
    intro b
    rcases ih (step b o) with h | ⟨hlt, o', ho', hc, hbm⟩
    · rcases hs b o with h0 | ⟨hlt0, hc0, hbm0⟩
      · exact Or.inl (by simpa [List.foldl, h0] using h)
      · refine Or.inr ⟨?_, o, List.mem_cons_self o t, ?_, ?_⟩
        · simpa [List.foldl, h] using hlt0
        · simpa [List.foldl, h] using hc0
        · simpa [List.foldl, h] using hbm0
    · have hle : b.odds ≤ (step b o).odds := by
        rcases hs b o with h0 | ⟨hlt0, _, _⟩
        · rw [h0]
        · exact le_of_lt hlt0
      exact Or.inr ⟨lt_of_le_of_lt hle hlt, o', List.mem_cons_of_mem o ho', hc, hbm⟩

/-- The result of a best-price fold is an upper bound of every valid
candidate price in the list (provided the accumulator starts non-negative). -/
theorem foldl_best_ub (step : BestOdd → OddsRow → BestOdd)
    (cand : OddsRow → ℚ → Prop)
    (hmono : ∀ b o, b.odds ≤ (step b o).odds)
    (hub : ∀ b o q, 0 ≤ b.odds → cand o q → q ≤ (step b o).odds) :
    ∀ (l : List OddsRow) (b : BestOdd), 0 ≤ b.odds →
      ∀ o ∈ l, ∀ q, cand o q → q ≤ (l.foldl step b).odds := by
  intro l
  induction l with
  | nil => intro b _ o ho; exact absurd ho (List.not_mem_nil o)
  | cons o t ih =>
    intro b hb o' ho' q hq
    rcases List.mem_cons.mp ho' with rfl | ho'
    · exact le_trans (hub b o' q hb hq) (foldl_best_mono step hmono t (step b o'))
    · exact ih (step b o) (le_trans hb (hmono b o)) o' ho' q hq

/-- Quotes whose candidate price is rejected by the step function do not
influence the fold: restricting the list to accepted quotes gives the same
result. -/
theorem foldl_best_filter (step : BestOdd → OddsRow → BestOdd)
    (pos : OddsRow → Bool)
    (hmono : ∀ b o, b.odds ≤ (step b o).odds)
    (hskip : ∀ b o, 0 ≤ b.odds → pos o = false → step b o = b) :
    ∀ (l : List OddsRow) (b : BestOdd), 0 ≤ b.odds →
      (l.filter pos).foldl step b = l.foldl step b := by
  intro l
  induction l with
  | nil => intro b _; rfl
  | cons o t ih =>
    intro b hb
    by_cases hp : pos o = true
    · rw [List.filter_cons_of_pos hp, List.foldl_cons, List.foldl_cons]
      exact ih (step b o) (le_trans hb (hmono b o))
    · have hp' : pos o = false := by simpa using hp
      rw [List.filter_cons_of_neg (by simp [hp']), List.foldl_cons, hskip b o hb hp']
      exact ih b hb

/-! Step-function facts for the three concrete loops. -/

theorem bestStep1_mono (b : BestOdd) (o : OddsRow) : b.odds ≤ (bestStep1 b o).odds := by
  unfold bestStep1; split <;> simp_all <;> linarith

theorem bestStep2_mono (b : BestOdd) (o : OddsRow) : b.odds ≤ (bestStep2 b o).odds := by
  unfold bestStep2; split <;> simp_all <;> linarith

theorem bestStepDraw_mono (b : BestOdd) (o : OddsRow) : b.odds ≤ (bestStepDraw b o).odds := by
  unfold bestStepDraw
  cases o.draw_odds with
  | none => exact le_refl _
  | some d => dsimp only; split <;> simp_all <;> linarith

theorem bestStep1_char (b : BestOdd) (o : OddsRow) :
    bestStep1 b o = b ∨
      (b.odds < (bestStep1 b o).odds ∧ o.odds1 = (bestStep1 b o).odds ∧
        (bestStep1 b o).bookmaker = some o.bookmaker) := by
  unfold bestStep1; split
  · right; simp_all
  · left; rfl

theorem bestStep2_char (b : BestOdd) (o : OddsRow) :
    bestStep2 b o = b ∨
      (b.odds < (bestStep2 b o).odds ∧ o.odds2 = (bestStep2 b o).odds ∧
        (bestStep2 b o).bookmaker = some o.bookmaker) := by
  unfold bestStep2; split
  · right; simp_all
  · left; rfl

theorem bestStepDraw_char (b : BestOdd) (o : OddsRow) :
    bestStepDraw b o = b ∨
      (b.odds < (bestStepDraw b o).odds ∧ o.draw_odds = some ((bestStepDraw b o).odds) ∧
        (bestStepDraw b o).bookmaker = some o.bookmaker) := by
  unfold bestStepDraw
  cases h : o.draw_odds with
  | none => exact Or.inl rfl
  | some d =>
    dsimp only; split
    · right; simp_all
    · left; rfl

/-! Derived facts about the three best-price selectors. -/

theorem bestOdds1_nonneg (odds : List OddsRow) : 0 ≤ (bestOdds1 odds).odds :=
  foldl_best_mono bestStep1 bestStep1_mono odds { odds := 0, bookmaker := none }

theorem bestOdds2_nonneg (odds : List OddsRow) : 0 ≤ (bestOdds2 odds).odds :=
  foldl_best_mono bestStep2 bestStep2_mono odds { odds := 0, bookmaker := none }

theorem bestDrawOdds_nonneg (odds : List OddsRow) : 0 ≤ (bestDrawOdds odds).odds :=
  foldl_best_mono bestStepDraw bestStepDraw_mono odds { odds := 0, bookmaker := none }

/-- The first best price is either the absent marker `⟨0, null⟩` or a strictly
positive price of some quote, with that quote's bookmaker recorded. -/
theorem bestOdds1_char (odds : List OddsRow) :
    bestOdds1 odds = { odds := 0, bookmaker := none } ∨
      (0 < (bestOdds1 odds).odds ∧ ∃ o ∈ odds, o.odds1 = (bestOdds1 odds).odds ∧
        (bestOdds1 odds).bookmaker = some o.bookmaker) :=
  foldl_best_char bestStep1 (fun o q => o.odds1 = q) bestStep1_char odds _

theorem bestOdds2_char (odds : List OddsRow) :
    bestOdds2 odds = { odds := 0, bookmaker := none } ∨
      (0 < (bestOdds2 odds).odds ∧ ∃ o ∈ odds, o.odds2 = (bestOdds2 odds).odds ∧
        (bestOdds2 odds).bookmaker = some o.bookmaker) :=
  foldl_best_char bestStep2 (fun o q => o.odds2 = q) bestStep2_char odds _

theorem bestDrawOdds_char (odds : List OddsRow) :
    bestDrawOdds odds = { odds := 0, bookmaker := none } ∨
      (0 < (bestDrawOdds odds).odds ∧ ∃ o ∈ odds, o.draw_odds = some ((bestDrawOdds odds).odds) ∧
        (bestDrawOdds odds).bookmaker = some o.bookmaker) :=
  foldl_best_char bestStepDraw (fun o q => o.draw_odds = some q) bestStepDraw_char odds _

/-- Every quote's first price is bounded by the selected best first price. -/
theorem bestOdds1_ub (odds : List OddsRow) : ∀ o ∈ odds, o.odds1 ≤ (bestOdds1 odds).odds := by
  intro o ho
  refine foldl_best_ub bestStep1 (fun o q => o.odds1 = q) bestStep1_mono ?_ odds _ le_rfl o ho _ rfl
  intro b o' q hb hq
  unfold bestStep1; split <;> simp_all <;> linarith

theorem bestOdds2_ub (odds : List OddsRow) : ∀ o ∈ odds, o.odds2 ≤ (bestOdds2 odds).odds := by
  intro o ho
  refine foldl_best_ub bestStep2 (fun o q => o.odds2 = q) bestStep2_mono ?_ odds _ le_rfl o ho _ rfl
  intro b o' q hb hq
  unfold bestStep2; split <;> simp_all <;> linarith

theorem bestDrawOdds_ub (odds : List OddsRow) :
    ∀ o ∈ odds, ∀ d, o.draw_odds = some d → d ≤ (bestDrawOdds odds).odds := by
  intro o ho d hd
  refine foldl_best_ub bestStepDraw (fun o q => o.draw_odds = some q) bestStepDraw_mono ?_
    odds _ le_rfl o ho d hd
  intro b o' q hb hq
  unfold bestStepDraw
  rw [hq]; dsimp only; split
  · simp
  · rename_i hcond
    rcases not_and_or.mp hcond with h0 | hle
    · have : q = 0 := by simpa using h0
      simpa [this] using hb
    · linarith [not_lt.mp hle]

/-- Quotes with a non-positive first price never influence the selection of
the best first price: they are treated as absent. -/
theorem bestOdds1_filter (odds : List OddsRow) :
    bestOdds1 (odds.filter fun o => decide (0 < o.odds1)) = bestOdds1 odds := by
  refine foldl_best_filter bestStep1 (fun o => decide (0 < o.odds1)) bestStep1_mono ?_ odds _ le_rfl
  intro b o hb hneg
  have h : ¬ (0 < o.odds1) := by simpa using hneg
  unfold bestStep1
  rw [if_neg (by push_neg at h ⊢; linarith)]

theorem bestOdds2_filter (odds : List OddsRow) :
    bestOdds2 (odds.filter fun o => decide (0 < o.odds2)) = bestOdds2 odds := by
  refine foldl_best_filter bestStep2 (fun o => decide (0 < o.odds2)) bestStep2_mono ?_ odds _ le_rfl
  intro b o hb hneg
  have h : ¬ (0 < o.odds2) := by simpa using hneg
  unfold bestStep2
  rw [if_neg (by push_neg at h ⊢; linarith)]

theorem bestDrawOdds_filter (odds : List OddsRow) :
    bestDrawOdds (odds.filter fun o => decide (0 < o.draw_odds.getD 0)) = bestDrawOdds odds := by
  refine foldl_best_filter bestStepDraw (fun o => decide (0 < o.draw_odds.getD 0))
    bestStepDraw_mono ?_ odds _ le_rfl
  intro b o hb hneg
  have h : ¬ (0 < o.draw_odds.getD 0) := by simpa using hneg
  unfold bestStepDraw
  cases hdo : o.draw_odds with
  | none => rfl
  | some d =>
    dsimp only
    rw [if_neg]
    rintro ⟨hne, hgt⟩
    rw [hdo] at h
    simp only [Option.getD_some] at h
    exact h (lt_of_le_of_lt hb hgt)

/-! Facts about two-decimal rounding. -/

/-- Rounding to two decimals moves a value by at most half a cent. -/
theorem round2_abs_sub (q : ℚ) : |round2 q - q| ≤ 1/200 := by
  rw [round2]
  by_cases hq : q ≥ 0
  · rw [if_pos hq]
    have h1 := Int.floor_le (q * 100 + 1/2)
    have h2 := Int.lt_floor_add_one (q * 100 + 1/2)
    rw [abs_le]
    constructor <;> [linarith; linarith]
  · rw [if_neg hq]
    have h1 := Int.floor_le (-(q * 100) + 1/2)
    have h2 := Int.lt_floor_add_one (-(q * 100) + 1/2)
    rw [abs_le]
    push_cast
    constructor <;> [linarith; linarith]

/-- Rounding a non-negative value to two decimals stays non-negative. -/
theorem round2_nonneg (q : ℚ) (hq : 0 ≤ q) : 0 ≤ round2 q := by
  rw [round2, if_pos hq]
  have h0 : (0 : ℤ) ≤ ⌊q * 100 + 1/2⌋ := Int.floor_nonneg.mpr (by linarith)
  have : (0 : ℚ) ≤ (⌊q * 100 + 1/2⌋ : ℚ) := by exact_mod_cast h0
  positivity

/-! Dissection of the two calculators into their three exit paths. -/

/-- Case analysis of `calculate2WayArbitrage`: an unpriced outcome gives
`none` (the JS Infinity path), a total implied probability of at least one
gives `none`, and otherwise the function returns the arbitrage record. -/
theorem calculate2Way_cases (odds : List OddsRow) :
    (((bestOdds1 odds).odds = 0 ∨ (bestOdds2 odds).odds = 0) →
       calculate2WayArbitrage odds = none) ∧
    (¬((bestOdds1 odds).odds = 0 ∨ (bestOdds2 odds).odds = 0) →
       (1 ≤ twoWayTotal odds → calculate2WayArbitrage odds = none) ∧
       (twoWayTotal odds < 1 → calculate2WayArbitrage odds = some (twoWayResult odds))) := by
  refine ⟨fun h0 => ?_, fun h0 => ⟨fun hge => ?_, fun hlt => ?_⟩⟩
  · rw [calculate2WayArbitrage, if_pos h0]
  · rw [calculate2WayArbitrage, if_neg h0, if_pos (by simpa [twoWayTotal] using hge)]
  · rw [calculate2WayArbitrage, if_neg h0, if_neg (by simpa [twoWayTotal] using not_le.mpr hlt)]
    rfl

/-- Case analysis of `calculate3WayArbitrage`, mirroring the explicit
all-three-outcomes-priced check of the source. -/
theorem calculate3Way_cases (odds : List OddsRow) :
    (((bestOdds1 odds).odds = 0 ∨ (bestOdds2 odds).odds = 0 ∨ (bestDrawOdds odds).odds = 0) →
       calculate3WayArbitrage odds = none) ∧
    (¬((bestOdds1 odds).odds = 0 ∨ (bestOdds2 odds).odds = 0 ∨ (bestDrawOdds odds).odds = 0) →
       (1 ≤ threeWayTotal odds → calculate3WayArbitrage odds = none) ∧
       (threeWayTotal odds < 1 → calculate3WayArbitrage odds = some (threeWayResult odds))) := by
  refine ⟨fun h0 => ?_, fun h0 => ⟨fun hge => ?_, fun hlt => ?_⟩⟩
  · rw [calculate3WayArbitrage, if_pos h0]
  · rw [calculate3WayArbitrage, if_neg h0, if_pos (by simpa [threeWayTotal] using hge)]
  · rw [calculate3WayArbitrage, if_neg h0, if_neg (by simpa [threeWayTotal] using not_le.mpr hlt)]
    rfl

/-- Inversion: a returned opportunity comes from one of the two arbitrage
branches, with all participating best prices strictly positive and the
total implied probability strictly below one. -/
theorem calculateArbitrage_some_inv (odds : List OddsRow) (a : Arbitrage)
    (h : calculateArbitrage odds = some a) :
    2 ≤ odds.length ∧
    ((hasDrawOdds odds = false ∧ 0 < (bestOdds1 odds).odds ∧ 0 < (bestOdds2 odds).odds ∧
        twoWayTotal odds < 1 ∧ a = twoWayResult odds) ∨
     (hasDrawOdds odds = true ∧ 0 < (bestOdds1 odds).odds ∧ 0 < (bestOdds2 odds).odds ∧
        0 < (bestDrawOdds odds).odds ∧ threeWayTotal odds < 1 ∧ a = threeWayResult odds)) := by
  rw [calculateArbitrage] at h
  by_cases hlen : odds.length < 2
  · rw [if_pos hlen] at h; exact absurd h (by simp)
  · rw [if_neg hlen] at h
    refine ⟨by omega, ?_⟩
    by_cases hdraw : hasDrawOdds odds = true
    · rw [if_pos hdraw] at h
      by_cases h0 : (bestOdds1 odds).odds = 0 ∨ (bestOdds2 odds).odds = 0 ∨
          (bestDrawOdds odds).odds = 0
      · rw [(calculate3Way_cases odds).1 h0] at h; exact absurd h (by simp)
      · push_neg at h0
        by_cases hge : 1 ≤ threeWayTotal odds
        · rw [((calculate3Way_cases odds).2 (by push_neg; exact h0)).1 hge] at h
          exact absurd h (by simp)
        · have hlt := not_le.mp hge
          rw [((calculate3Way_cases odds).2 (by push_neg; exact h0)).2 hlt] at h
          refine Or.inr ⟨hdraw, ?_, ?_, ?_, hlt, (Option.some_inj.mp h).symm⟩
          · exact lt_of_le_of_ne (bestOdds1_nonneg odds) (Ne.symm h0.1)
          · exact lt_of_le_of_ne (bestOdds2_nonneg odds) (Ne.symm h0.2.1)
          · exact lt_of_le_of_ne (bestDrawOdds_nonneg odds) (Ne.symm h0.2.2)
    · rw [if_neg hdraw] at h
      by_cases h0 : (bestOdds1 odds).odds = 0 ∨ (bestOdds2 odds).odds = 0
      · rw [(calculate2Way_cases odds).1 h0] at h; exact absurd h (by simp)
      · push_neg at h0
        by_cases hge : 1 ≤ twoWayTotal odds
        · rw [((calculate2Way_cases odds).2 (by push_neg; exact h0)).1 hge] at h
          exact absurd h (by simp)
        · have hlt := not_le.mp hge
          rw [((calculate2Way_cases odds).2 (by push_neg; exact h0)).2 hlt] at h
          refine Or.inl ⟨by simpa using hdraw, ?_, ?_, hlt, (Option.some_inj.mp h).symm⟩
          · exact lt_of_le_of_ne (bestOdds1_nonneg odds) (Ne.symm h0.1)
          · exact lt_of_le_of_ne (bestOdds2_nonneg odds) (Ne.symm h0.2)

/-- Two exact shares of 100 stay within half a cent each of their rounded
values, so the rounded shares sum to 100 within 0.01 per leg. -/
theorem round2_split2 (x y : ℚ) (h : x + y ≠ 0) :
    |round2 (x / (x + y) * 100) + round2 (y / (x + y) * 100) - 100| ≤ 2 * (1/100) := by
  have hsum : x / (x + y) * 100 + y / (x + y) * 100 = 100 := by
    field_simp
    ring
  have h1 := round2_abs_sub (x / (x + y) * 100)
  have h2 := round2_abs_sub (y / (x + y) * 100)
  rw [abs_le] at h1 h2 ⊢
  constructor <;> [linarith; linarith]

/-- Three exact shares of 100 stay within half a cent each of their rounded
values. -/
theorem round2_split3 (x y z : ℚ) (h : x + y + z ≠ 0) :
    |round2 (x / (x + y + z) * 100) + round2 (z / (x + y + z) * 100) +
      round2 (y / (x + y + z) * 100) - 100| ≤ 3 * (1/100) := by
  have hsum : x / (x + y + z) * 100 + z / (x + y + z) * 100 + y / (x + y + z) * 100 = 100 := by
    field_simp
    ring
  have h1 := round2_abs_sub (x / (x + y + z) * 100)
  have h2 := round2_abs_sub (y / (x + y + z) * 100)
  have h3 := round2_abs_sub (z / (x + y + z) * 100)
  rw [abs_le] at h1 h2 h3 ⊢
  constructor <;> [linarith; linarith]

/-- C1 (amended: the stored percentages are the specification formulas
rounded to two decimal places).  For every quote set of length at least two,
the engine returns an opportunity exactly when the sum over the event's
outcomes of the reciprocal best price is finite and strictly below one, and
the returned record carries the rounded profit and stake formulas. -/
theorem claim1_detection_formula (odds : List OddsRow) (h : 2 ≤ odds.length) :
    ((calculateArbitrage odds).isSome ↔ ∃ t, outcomesTotal odds = some t ∧ t < 1) ∧
    (∀ a t, calculateArbitrage odds = some a → outcomesTotal odds = some t →
      a.profit_percentage = round2 ((1 / t - 1) * 100) ∧
      a.bets.map Bet.stake_pct =
        (if hasDrawOdds odds then
          [ round2 (1 / (bestOdds1 odds).odds / t * 100)
          , round2 (1 / (bestDrawOdds odds).odds / t * 100)
          , round2 (1 / (bestOdds2 odds).odds / t * 100) ]
         else
          [ round2 (1 / (bestOdds1 odds).odds / t * 100)
          , round2 (1 / (bestOdds2 odds).odds / t * 100) ])) := by
  have hlen : ¬ (odds.length < 2) := by omega
  rw [calculateArbitrage, if_neg hlen]
  by_cases hdraw : hasDrawOdds odds = true
  · rw [if_pos hdraw, outcomesTotal, if_pos hdraw]
    by_cases h0 : (bestOdds1 odds).odds = 0 ∨ (bestOdds2 odds).odds = 0 ∨
        (bestDrawOdds odds).odds = 0
    · rw [(calculate3Way_cases odds).1 h0, if_pos h0]
      simp
    · rw [if_neg h0]
      by_cases hge : 1 ≤ threeWayTotal odds
      · rw [((calculate3Way_cases odds).2 h0).1 hge]
        constructor
        · simp only [Option.isSome_none, Bool.false_eq_true, false_iff]
          rintro ⟨t, ht, hlt⟩
          rw [Option.some_inj] at ht
          rw [threeWayTotal] at hge
          linarith [ht ▸ hlt]
        · intro a t ha
          exact absurd ha (by simp)
      · have hlt := not_le.mp hge
        rw [((calculate3Way_cases odds).2 h0).2 hlt]
        constructor
        · exact ⟨fun _ => ⟨threeWayTotal odds, by rw [threeWayTotal], hlt⟩, fun _ => rfl⟩
        · intro a t ha ht
          rw [Option.some_inj] at ha ht
          subst ha
          have ht' : t = threeWayTotal odds := by rw [← ht, threeWayTotal]
          subst ht'
          refine ⟨rfl, ?_⟩
          rw [if_pos hdraw]
          rfl
  · have hdraw' : hasDrawOdds odds = false := by simpa using hdraw
    rw [if_neg hdraw, outcomesTotal, if_neg hdraw]
    by_cases h0 : (bestOdds1 odds).odds = 0 ∨ (bestOdds2 odds).odds = 0
    · rw [(calculate2Way_cases odds).1 h0, if_pos h0]
      simp
    · rw [if_neg h0]
      by_cases hge : 1 ≤ twoWayTotal odds
      · rw [((calculate2Way_cases odds).2 h0).1 hge]
        constructor
        · simp only [Option.isSome_none, Bool.false_eq_true, false_iff]
          rintro ⟨t, ht, hlt⟩
          rw [Option.some_inj] at ht
          rw [twoWayTotal] at hge
          linarith [ht ▸ hlt]
        · intro a t ha
          exact absurd ha (by simp)
      · have hlt := not_le.mp hge
        rw [((calculate2Way_cases odds).2 h0).2 hlt]
        constructor
        · exact ⟨fun _ => ⟨twoWayTotal odds, by rw [twoWayTotal], hlt⟩, fun _ => rfl⟩
        · intro a t ha ht
          rw [Option.some_inj] at ha ht
          subst ha
          have ht' : t = twoWayTotal odds := by rw [← ht, twoWayTotal]
          subst ht'
          refine ⟨rfl, ?_⟩
          rw [if_neg hdraw]
          rfl

/-- C1 counterexample to the claim as stated: on `exC1` the best prices are
2.1 and 2.2, and the stored profitPercent is 7.44, which differs from the
exact formula value 320/43 = 7.44186…; the stored field is the formula
rounded to two decimals, not the formula itself. -/
theorem claim1_counterexample :
    (bestOdds1 exC1).odds = 21/10 ∧ (bestOdds2 exC1).odds = 11/5 ∧
    (calculateArbitrage exC1).map Arbitrage.profit_percentage = some (186/25) ∧
    ((186 : ℚ)/25) ≠ (1 / (1/(21/10) + 1/(11/5)) - 1) * 100 := by
  refine ⟨?_, ?_, ?_, by norm_num⟩
  · norm_num [exC1, bestOdds1, bestStep1, List.foldl]
  · norm_num [exC1, bestOdds2, bestStep2, List.foldl]
  · norm_num [exC1, calculateArbitrage, calculate2WayArbitrage, hasDrawOdds, bestOdds1, bestOdds2,
      bestStep1, bestStep2, List.foldl, round2, Int.floor_eq_iff]

/-- C1 witness: the detection theorem applied to the concrete quote set
`exC1`. -/
theorem claim1_witness :
    2 ≤ exC1.length ∧
    (((calculateArbitrage exC1).isSome ↔ ∃ t, outcomesTotal exC1 = some t ∧ t < 1) ∧
     (∀ a t, calculateArbitrage exC1 = some a → outcomesTotal exC1 = some t →
       a.profit_percentage = round2 ((1 / t - 1) * 100) ∧
       a.bets.map Bet.stake_pct =
         (if hasDrawOdds exC1 then
           [ round2 (1 / (bestOdds1 exC1).odds / t * 100)
           , round2 (1 / (bestDrawOdds exC1).odds / t * 100)
           , round2 (1 / (bestOdds2 exC1).odds / t * 100) ]
          else
           [ round2 (1 / (bestOdds1 exC1).odds / t * 100)
           , round2 (1 / (bestOdds2 exC1).odds / t * 100) ]))) :=
  ⟨by decide, claim1_detection_formula exC1 (by decide)⟩

/-- C3: for every opportunity the engine returns, the rounded stake
percentages sum to 100 within 0.01 per leg. -/
theorem claim3_stake_conservation (odds : List OddsRow) (a : Arbitrage)
    (h : calculateArbitrage odds = some a) :
    |stakeSum a - 100| ≤ a.bets.length * (1/100) := by
  rcases calculateArbitrage_some_inv odds a h with
    ⟨_, ⟨hnd, hb1, hb2, hlt, rfl⟩ | ⟨hd, hb1, hb2, hbd, hlt, rfl⟩⟩
  · have hne : 1 / (bestOdds1 odds).odds + 1 / (bestOdds2 odds).odds ≠ 0 := by positivity
    have := round2_split2 (1 / (bestOdds1 odds).odds) (1 / (bestOdds2 odds).odds) hne
    simp only [stakeSum, twoWayResult, twoWayTotal, List.map_cons, List.map_nil, List.sum_cons,
      List.sum_nil, add_zero, List.length_cons, List.length_nil]
    push_cast
    convert this using 2
  · have hne : 1 / (bestOdds1 odds).odds + 1 / (bestOdds2 odds).odds +
      1 / (bestDrawOdds odds).odds ≠ 0 := by positivity
    have := round2_split3 (1 / (bestOdds1 odds).odds) (1 / (bestOdds2 odds).odds)
      (1 / (bestDrawOdds odds).odds) hne
    simp only [stakeSum, threeWayResult, threeWayTotal, List.map_cons, List.map_nil,
      List.sum_cons, List.sum_nil, add_zero, List.length_cons, List.length_nil]
    push_cast
    convert this using 2
    ring

/-- C3 witness: stake conservation evaluated on the concrete opportunity the
engine returns for `exC1`. -/
theorem claim3_witness :
    calculateArbitrage exC1 = some exC1Result ∧
    |stakeSum exC1Result - 100| ≤ exC1Result.bets.length * (1/100) := by
  have he : calculateArbitrage exC1 = some exC1Result := by
    norm_num [exC1, exC1Result, calculateArbitrage, calculate2WayArbitrage, hasDrawOdds,
      bestOdds1, bestOdds2, bestStep1, bestStep2, List.foldl, round2, headTeam1, headTeam2,
      Int.floor_eq_iff]
  exact ⟨he, claim3_stake_conservation exC1 exC1Result he⟩

/-- C4 (amended: positivity holds for the unrounded profit; the stored,
rounded profitPercent is only non-negative and can be 0.00).  Every returned
opportunity arises from a total implied probability strictly below one, so
its exact profit formula is strictly positive, and the stored field is that
formula rounded. -/
theorem claim4_profit (odds : List OddsRow) (a : Arbitrage)
    (h : calculateArbitrage odds = some a) :
    0 ≤ a.profit_percentage ∧
    ∃ t, outcomesTotal odds = some t ∧ t < 1 ∧ 0 < (1 / t - 1) * 100 ∧
      a.profit_percentage = round2 ((1 / t - 1) * 100) := by
  rcases calculateArbitrage_some_inv odds a h with
    ⟨_, ⟨hnd, hb1, hb2, hlt, rfl⟩ | ⟨hd, hb1, hb2, hbd, hlt, rfl⟩⟩
  · have hT : 0 < twoWayTotal odds := by rw [twoWayTotal]; positivity
    have hp : 0 < (1 / twoWayTotal odds - 1) * 100 := by
      have : 1 < 1 / twoWayTotal odds := by
        rw [lt_div_iff hT]; linarith
      linarith
    refine ⟨round2_nonneg _ (le_of_lt hp), twoWayTotal odds, ?_, hlt, hp, rfl⟩
    rw [outcomesTotal, if_neg (by simp [hnd]), if_neg (by push_neg; constructor <;> positivity)]
    rw [twoWayTotal]
  · have hT : 0 < threeWayTotal odds := by rw [threeWayTotal]; positivity
    have hp : 0 < (1 / threeWayTotal odds - 1) * 100 := by
      have : 1 < 1 / threeWayTotal odds := by
        rw [lt_div_iff hT]; linarith
      linarith
    refine ⟨round2_nonneg _ (le_of_lt hp), threeWayTotal odds, ?_, hlt, hp, rfl⟩
    rw [outcomesTotal, if_pos hd, if_neg (by push_neg; refine ⟨?_, ?_, ?_⟩ <;> positivity)]
    rw [threeWayTotal]

/-- C4 counterexample to the claim as stated: on `exC4` the engine creates an
opportunity whose stored profitPercent is exactly 0 after rounding — not
strictly positive. -/
theorem claim4_counterexample :
    calculateArbitrage exC4 = some exC4Result ∧ exC4Result.profit_percentage = 0 := by
  constructor
  · norm_num [exC4, exC4Result, calculateArbitrage, calculate2WayArbitrage, hasDrawOdds,
      bestOdds1, bestOdds2, bestStep1, bestStep2, List.foldl, round2, headTeam1, headTeam2,
      Int.floor_eq_iff]
  · rfl

/-- C4 witness: the amended profit theorem applied to the opportunity
returned on `exC4`. -/
theorem claim4_witness :
    calculateArbitrage exC4 = some exC4Result ∧
    (0 ≤ exC4Result.profit_percentage ∧
     ∃ t, outcomesTotal exC4 = some t ∧ t < 1 ∧ 0 < (1 / t - 1) * 100 ∧
       exC4Result.profit_percentage = round2 ((1 / t - 1) * 100)) := by
  have he : calculateArbitrage exC4 = some exC4Result := by
    norm_num [exC4, exC4Result, calculateArbitrage, calculate2WayArbitrage, hasDrawOdds,
      bestOdds1, bestOdds2, bestStep1, bestStep2, List.foldl, round2, headTeam1, headTeam2,
      Int.floor_eq_iff]
  exact ⟨he, claim4_profit exC4 exC4Result he⟩

/-- C10: when no quote reports a positive price for one of the two sides —
either side — the best price for that side stays 0, the two-way calculator
returns none (the JS division by zero yields Infinity, which fails the
threshold test), and the engine as a whole returns none for the two-outcome
event — no opportunity and no exception escapes. -/
theorem claim10_unpriced_side (odds : List OddsRow)
    (h : (∀ o ∈ odds, o.odds1 ≤ 0) ∨ (∀ o ∈ odds, o.odds2 ≤ 0)) :
    ((∀ o ∈ odds, o.odds1 ≤ 0) → (bestOdds1 odds).odds = 0) ∧
    ((∀ o ∈ odds, o.odds2 ≤ 0) → (bestOdds2 odds).odds = 0) ∧
    calculate2WayArbitrage odds = none ∧
    (hasDrawOdds odds = false → calculateArbitrage odds = none) := by
  have hb1 : (∀ o ∈ odds, o.odds1 ≤ 0) → (bestOdds1 odds).odds = 0 := by
    intro h1
    rcases bestOdds1_char odds with he | ⟨hpos, o, ho, heq, _⟩
    · rw [he]
    · exact absurd hpos (by linarith [h1 o ho, heq.symm.le])
  have hb2 : (∀ o ∈ odds, o.odds2 ≤ 0) → (bestOdds2 odds).odds = 0 := by
    intro h2
    rcases bestOdds2_char odds with he | ⟨hpos, o, ho, heq, _⟩
    · rw [he]
    · exact absurd hpos (by linarith [h2 o ho, heq.symm.le])
  have hb : (bestOdds1 odds).odds = 0 ∨ (bestOdds2 odds).odds = 0 := h.imp hb1 hb2
  refine ⟨hb1, hb2, (calculate2Way_cases odds).1 hb, fun hnd => ?_⟩
  rw [calculateArbitrage]
  by_cases hlen : odds.length < 2
  · rw [if_pos hlen]
  · rw [if_neg hlen, if_neg (by simp [hnd]), (calculate2Way_cases odds).1 hb]

/-- C10 witness: the unpriced-side theorem applied to both families — `exC10A`
with side one priced 0 and -1, and `exC10` with side two priced 0 and -1. -/
theorem claim10_witness :
    (∀ o ∈ exC10A, o.odds1 ≤ 0) ∧ (∀ o ∈ exC10, o.odds2 ≤ 0) ∧
    ((bestOdds1 exC10A).odds = 0 ∧ calculate2WayArbitrage exC10A = none ∧
     (hasDrawOdds exC10A = false → calculateArbitrage exC10A = none)) ∧
    ((bestOdds2 exC10).odds = 0 ∧ calculate2WayArbitrage exC10 = none ∧
     (hasDrawOdds exC10 = false → calculateArbitrage exC10 = none)) := by
  have hA : ∀ o ∈ exC10A, o.odds1 ≤ 0 := by
    intro o ho
    simp only [exC10A, List.mem_cons, List.not_mem_nil, or_false] at ho
    rcases ho with rfl | rfl <;> norm_num
  have hB : ∀ o ∈ exC10, o.odds2 ≤ 0 := by
    intro o ho
    simp only [exC10, List.mem_cons, List.not_mem_nil, or_false] at ho
    rcases ho with rfl | rfl <;> norm_num
  obtain ⟨h1A, -, hcA, haA⟩ := claim10_unpriced_side exC10A (Or.inl hA)
  obtain ⟨-, h2B, hcB, haB⟩ := claim10_unpriced_side exC10 (Or.inr hB)
  exact ⟨hA, hB, ⟨h1A hA, hcA, haA⟩, ⟨h2B hB, hcB, haB⟩⟩

/-- C5 (amended: the engine treats a price as absent only when it is not
strictly positive; a price in (0, 1] is considered, can be selected as the
best price and contributes to the implied-probability sum — but every leg of
a returned opportunity still has price strictly above 1).  The selected best
price is the maximum of the reported prices; only rows with positive prices
influence it; and a best of 0 carries no bookmaker. -/
theorem claim5_absent_prices (odds : List OddsRow) :
    (∀ o ∈ odds, o.odds1 ≤ (bestOdds1 odds).odds) ∧
    (∀ o ∈ odds, o.odds2 ≤ (bestOdds2 odds).odds) ∧
    (∀ o ∈ odds, ∀ d, o.draw_odds = some d → d ≤ (bestDrawOdds odds).odds) ∧
    (bestOdds1 odds = { odds := 0, bookmaker := none } ∨
      (0 < (bestOdds1 odds).odds ∧ ∃ o ∈ odds, o.odds1 = (bestOdds1 odds).odds ∧
        (bestOdds1 odds).bookmaker = some o.bookmaker)) ∧
    (bestOdds2 odds = { odds := 0, bookmaker := none } ∨
      (0 < (bestOdds2 odds).odds ∧ ∃ o ∈ odds, o.odds2 = (bestOdds2 odds).odds ∧
        (bestOdds2 odds).bookmaker = some o.bookmaker)) ∧
    (bestDrawOdds odds = { odds := 0, bookmaker := none } ∨
      (0 < (bestDrawOdds odds).odds ∧ ∃ o ∈ odds, o.draw_odds = some ((bestDrawOdds odds).odds) ∧
        (bestDrawOdds odds).bookmaker = some o.bookmaker)) ∧
    bestOdds1 (odds.filter fun o => decide (0 < o.odds1)) = bestOdds1 odds ∧
    bestOdds2 (odds.filter fun o => decide (0 < o.odds2)) = bestOdds2 odds ∧
    bestDrawOdds (odds.filter fun o => decide (0 < o.draw_odds.getD 0)) = bestDrawOdds odds ∧
    (∀ a, calculateArbitrage odds = some a → ∀ b ∈ a.bets, 1 < b.odds) := by
  refine ⟨bestOdds1_ub odds, bestOdds2_ub odds, bestDrawOdds_ub odds,
    bestOdds1_char odds, bestOdds2_char odds, bestDrawOdds_char odds,
    bestOdds1_filter odds, bestOdds2_filter odds, bestDrawOdds_filter odds, ?_⟩
  intro a ha b hb
  rcases calculateArbitrage_some_inv odds a ha with
    ⟨_, ⟨hnd, hb1, hb2, hlt, rfl⟩ | ⟨hd, hb1, hb2, hbd, hlt, rfl⟩⟩
  · have hp1 : 0 < 1 / (bestOdds1 odds).odds := by positivity
    have hp2 : 0 < 1 / (bestOdds2 odds).odds := by positivity
    rw [twoWayTotal] at hlt
    simp only [twoWayResult, List.mem_cons, List.not_mem_nil, or_false] at hb
    rcases hb with rfl | rfl
    · exact (div_lt_one hb1).mp (by linarith)
    · exact (div_lt_one hb2).mp (by linarith)
  · have hp1 : 0 < 1 / (bestOdds1 odds).odds := by positivity
    have hp2 : 0 < 1 / (bestOdds2 odds).odds := by positivity
    have hpd : 0 < 1 / (bestDrawOdds odds).odds := by positivity
    rw [threeWayTotal] at hlt
    simp only [threeWayResult, List.mem_cons, List.not_mem_nil, or_false] at hb
    rcases hb with rfl | rfl | rfl
    · exact (div_lt_one hb1).mp (by linarith)
    · exact (div_lt_one hbd).mp (by linarith)
    · exact (div_lt_one hb2).mp (by linarith)

/-- C5 counterexample to the claim as stated: on `exC5` the price 0.5 — which
is not greater than 1 — is selected as the best price for side one, and on
`exC6` the draw price 1 — also not greater than 1 — is treated as valid and
contributes a full unit to the implied-probability sum. -/
theorem claim5_counterexample :
    bestOdds1 exC5 = { odds := 1/2, bookmaker := some "B1" } ∧ ((1:ℚ)/2 ≤ 1) ∧
    hasDrawOdds exC6 = true ∧ (∀ o ∈ exC6, ∀ d, o.draw_odds = some d → d ≤ 1) ∧
    outcomesTotal exC6 = some (5/3) := by
  refine ⟨?_, by norm_num, ?_, ?_, ?_⟩
  · norm_num [exC5, bestOdds1, bestStep1, List.foldl]
  · norm_num [exC6, hasDrawOdds]
  · intro o ho d hdo
    simp only [exC6, List.mem_cons, List.not_mem_nil, or_false] at ho
    rcases ho with rfl | rfl <;> simp_all
  · norm_num [exC6, outcomesTotal, hasDrawOdds, bestOdds1, bestOdds2, bestDrawOdds,
      bestStep1, bestStep2, bestStepDraw, List.foldl]

/-- C5 witness: every leg of the opportunity returned on `exC1` has price
above 1, by the amended theorem. -/
theorem claim5_witness :
    calculateArbitrage exC1 = some exC1Result ∧ (∀ b ∈ exC1Result.bets, 1 < b.odds) := by
  have he : calculateArbitrage exC1 = some exC1Result := by
    norm_num [exC1, exC1Result, calculateArbitrage, calculate2WayArbitrage, hasDrawOdds,
      bestOdds1, bestOdds2, bestStep1, bestStep2, List.foldl, round2, headTeam1, headTeam2,
      Int.floor_eq_iff]
  obtain ⟨-, -, -, -, -, -, -, -, -, hlegs⟩ := claim5_absent_prices exC1
  exact ⟨he, hlegs exC1Result he⟩

/-- C6 (amended: the three-outcome route is taken exactly when some quote
carries a draw price that is present and strictly positive — not "greater
than 1.0" — and in that route the engine returns none whenever any of the
three best prices is zero). -/
theorem claim6_dispatch (odds : List OddsRow) :
    (hasDrawOdds odds = true ↔ ∃ o ∈ odds, ∃ d, o.draw_odds = some d ∧ 0 < d) ∧
    (2 ≤ odds.length →
      (hasDrawOdds odds = true → calculateArbitrage odds = calculate3WayArbitrage odds) ∧
      (hasDrawOdds odds = false → calculateArbitrage odds = calculate2WayArbitrage odds)) ∧
    (((bestOdds1 odds).odds = 0 ∨ (bestOdds2 odds).odds = 0 ∨ (bestDrawOdds odds).odds = 0) →
      calculate3WayArbitrage odds = none) := by
  refine ⟨?_, fun hlen => ⟨fun hd => ?_, fun hnd => ?_⟩, (calculate3Way_cases odds).1⟩
  · rw [hasDrawOdds, List.any_eq_true]
    constructor
    · rintro ⟨o, ho, hm⟩
      cases hdo : o.draw_odds with
      | none => rw [hdo] at hm; exact absurd hm (by simp)
      | some d =>
        rw [hdo] at hm
        simp only [Bool.and_eq_true, decide_eq_true_eq] at hm
        exact ⟨o, ho, d, hdo, hm.2⟩
    · rintro ⟨o, ho, d, hdo, hd⟩
      exact ⟨o, ho, by rw [hdo]; simp [ne_of_gt hd, hd]⟩
  · rw [calculateArbitrage, if_neg (by omega), if_pos hd]
  · rw [calculateArbitrage, if_neg (by omega), if_neg (by simp [hnd])]

/-- C6 counterexample to the claim as stated: on `exC6` no quote carries a
draw price greater than 1, yet the engine evaluates the event as
three-outcome and returns none, although a two-outcome evaluation of the
same set yields an opportunity. -/
theorem claim6_counterexample :
    hasDrawOdds exC6 = true ∧
    (∀ o ∈ exC6, ∀ d, o.draw_odds = some d → d ≤ 1) ∧
    calculateArbitrage exC6 = calculate3WayArbitrage exC6 ∧
    calculateArbitrage exC6 = none ∧
    (calculate2WayArbitrage exC6).isSome = true := by
  refine ⟨?_, ?_, ?_, ?_, ?_⟩
  · norm_num [exC6, hasDrawOdds]
  · intro o ho d hdo
    simp only [exC6, List.mem_cons, List.not_mem_nil, or_false] at ho
    rcases ho with rfl | rfl <;> simp_all
  · rw [calculateArbitrage, if_neg (by norm_num [exC6]), if_pos (by norm_num [exC6, hasDrawOdds])]
  · norm_num [exC6, calculateArbitrage, calculate3WayArbitrage, hasDrawOdds,
      bestOdds1, bestOdds2, bestDrawOdds, bestStep1, bestStep2, bestStepDraw, List.foldl]
  · norm_num [exC6, calculate2WayArbitrage, bestOdds1, bestOdds2,
      bestStep1, bestStep2, List.foldl]

/-- C6 witness: the dispatch theorem applied to `exC6`. -/
theorem claim6_witness :
    hasDrawOdds exC6 = true ∧ calculateArbitrage exC6 = calculate3WayArbitrage exC6 := by
  have hd : hasDrawOdds exC6 = true := by norm_num [exC6, hasDrawOdds]
  exact ⟨hd, ((claim6_dispatch exC6).2.1 (by norm_num [exC6])).1 hd⟩

/-- Staleness test unfolded: fresh data exists exactly when a scrape happened
and its age does not strictly exceed the window. -/
theorem needsFreshData_iff (s : CacheState) (now : ℕ) :
    needsFreshData s now = true ↔
      (s.lastScrapeTime = none ∨
        ∃ t, s.lastScrapeTime = some t ∧ now - t > CACHE_DURATION) := by
  rw [needsFreshData]
  cases h : s.lastScrapeTime with
  | none => simp
  | some t => simp

/-- C7 (amended: the staleness comparison is strict — a fetch begins iff the
timestamp is unset or the elapsed time strictly exceeds the 30-minute window,
and no refresh is in flight; at exactly 30 minutes the data still counts as
fresh).  When the data is fresh the call returns the cached result unchanged
and the fetch collaborator is not invoked. -/
theorem claim7_freshness_gate (s : CacheState) (now nowEnd : ℕ) (env : RunOutcome) :
    ((getOrScrapeData s now nowEnd env).fetchInvoked = true ↔
      ((s.lastScrapeTime = none ∨
          ∃ t, s.lastScrapeTime = some t ∧ now - t > CACHE_DURATION) ∧
        s.isScraping = false)) ∧
    (needsFreshData s now = false →
      getOrScrapeData s now nowEnd env =
        { state := s
          result := .cached (cacheAgeMinutes (now - s.lastScrapeTime.getD 0))
          fetchInvoked := false }) := by
  constructor
  · by_cases hf : needsFreshData s now = false
    · rw [getOrScrapeData.eq_def, if_pos hf]
      simp only [Bool.false_eq_true, false_iff, not_and]
      intro hstale
      exact absurd ((needsFreshData_iff s now).mpr hstale) (by simp [hf])
    · have hf' : needsFreshData s now = true := by simpa using hf
      rw [getOrScrapeData.eq_def, if_neg hf]
      by_cases hs : s.isScraping
      · rw [if_pos hs]
        simp only [Bool.false_eq_true, false_iff, not_and]
        intro _
        simp [hs]
      · rw [if_neg hs]
        have hgoal : (match env with
            | RunOutcome.fetchErr =>
                ({ state := { s with isScraping := false }, result := .thrown,
                   fetchInvoked := true } : CallOut)
            | .fetched 0 _ =>
                { state := { s with isScraping := false }, result := .emptyErr,
                  fetchInvoked := true }
            | .fetched (n+1) false =>
                { state := { s with isScraping := false }, result := .thrown,
                  fetchInvoked := true }
            | .fetched (n+1) true =>
                { state := { lastScrapeTime := some nowEnd, isScraping := false },
                  result := .ok (n+1), fetchInvoked := true }).fetchInvoked = true := by
          rcases env with _ | ⟨n, b⟩
          · rfl
          · rcases n with _ | n <;> rcases b <;> rfl
        rw [hgoal]
        simp only [true_iff]
        exact ⟨(needsFreshData_iff s now).mp hf', by simpa using hs⟩
  · intro h
    rw [getOrScrapeData.eq_def, if_pos h]

/-- C7 counterexample to the claim as stated: when the elapsed time equals
the 30-minute window exactly, the claim's condition (elapsed at least the
window) holds, yet the code judges the data fresh and does not begin a
fetch. -/
theorem claim7_counterexample :
    (1800000 - 0 ≥ CACHE_DURATION) ∧
    needsFreshData { lastScrapeTime := some 0, isScraping := false } 1800000 = false ∧
    (getOrScrapeData { lastScrapeTime := some 0, isScraping := false } 1800000 1800000
        (.fetched 5 true)).fetchInvoked = false ∧
    (getOrScrapeData { lastScrapeTime := some 0, isScraping := false } 1800000 1800000
        (.fetched 5 true)).result = .cached 30 :=
  ⟨by norm_num [CACHE_DURATION], by decide, by decide, by decide⟩

/-- C7 witness: the gate theorem applied at a fresh concrete state (age 1
second), discharging the freshness hypothesis. -/
theorem claim7_witness :
    needsFreshData { lastScrapeTime := some 0, isScraping := false } 1000 = false ∧
    getOrScrapeData { lastScrapeTime := some 0, isScraping := false } 1000 2000
        (.fetched 3 true) =
      { state := { lastScrapeTime := some 0, isScraping := false }
        result := .cached (cacheAgeMinutes (1000 - (some 0 : Option ℕ).getD 0))
        fetchInvoked := false } :=
  ⟨by decide,
    (claim7_freshness_gate { lastScrapeTime := some 0, isScraping := false } 1000 2000
      (.fetched 3 true)).2 (by decide)⟩

/-- C8: on every exit path of a refresh — fetch error, empty fetch result,
store failure, or success — the in-flight flag ends cleared; on the failure
paths the last-refresh timestamp is unchanged and the error is rethrown to
the triggering caller; the empty result keeps the timestamp and reports an
error result; success updates the timestamp. -/
theorem claim8_exit_paths (s : CacheState) (now nowEnd : ℕ) (env : RunOutcome)
    (hstale : needsFreshData s now = true) (hfree : s.isScraping = false) :
    ((getOrScrapeData s now nowEnd env).state.isScraping = false) ∧
    (env = .fetchErr →
      (getOrScrapeData s now nowEnd env).state.lastScrapeTime = s.lastScrapeTime ∧
      (getOrScrapeData s now nowEnd env).result = .thrown) ∧
    (∀ n, env = .fetched (n+1) false →
      (getOrScrapeData s now nowEnd env).state.lastScrapeTime = s.lastScrapeTime ∧
      (getOrScrapeData s now nowEnd env).result = .thrown) ∧
    (∀ b, env = .fetched 0 b →
      (getOrScrapeData s now nowEnd env).state.lastScrapeTime = s.lastScrapeTime ∧
      (getOrScrapeData s now nowEnd env).result = .emptyErr) ∧
    (∀ n, env = .fetched (n+1) true →
      (getOrScrapeData s now nowEnd env).state.lastScrapeTime = some nowEnd ∧
      (getOrScrapeData s now nowEnd env).result = .ok (n+1)) := by
  rw [getOrScrapeData.eq_def, if_neg (by simp [hstale]), if_neg (by simp [hfree])]
  refine ⟨?_, ?_, ?_, ?_, ?_⟩
  · rcases env with _ | ⟨n, b⟩
    · rfl
    · rcases n with _ | n <;> rcases b <;> rfl
  · rintro rfl; exact ⟨rfl, rfl⟩
  · rintro n rfl; exact ⟨rfl, rfl⟩
  · rintro b rfl; exact ⟨rfl, rfl⟩
  · rintro n rfl; exact ⟨rfl, rfl⟩

/-- C8 witness: the exit-path theorem applied to a stale, idle state with a
failing fetch, both hypotheses discharged concretely. -/
theorem claim8_witness :
    needsFreshData { lastScrapeTime := some 0, isScraping := false } 2000000 = true ∧
    (((getOrScrapeData { lastScrapeTime := some 0, isScraping := false } 2000000 2000001
        .fetchErr).state.isScraping = false) ∧
     (RunOutcome.fetchErr = .fetchErr →
       (getOrScrapeData { lastScrapeTime := some 0, isScraping := false } 2000000 2000001
          .fetchErr).state.lastScrapeTime = some 0 ∧
       (getOrScrapeData { lastScrapeTime := some 0, isScraping := false } 2000000 2000001
          .fetchErr).result = .thrown) ∧
     (∀ n, RunOutcome.fetchErr = .fetched (n+1) false →
       (getOrScrapeData { lastScrapeTime := some 0, isScraping := false } 2000000 2000001
          .fetchErr).state.lastScrapeTime = some 0 ∧
       (getOrScrapeData { lastScrapeTime := some 0, isScraping := false } 2000000 2000001
          .fetchErr).result = .thrown) ∧
     (∀ b, RunOutcome.fetchErr = .fetched 0 b →
       (getOrScrapeData { lastScrapeTime := some 0, isScraping := false } 2000000 2000001
          .fetchErr).state.lastScrapeTime = some 0 ∧
       (getOrScrapeData { lastScrapeTime := some 0, isScraping := false } 2000000 2000001
          .fetchErr).result = .emptyErr) ∧
     (∀ n, RunOutcome.fetchErr = .fetched (n+1) true →
       (getOrScrapeData { lastScrapeTime := some 0, isScraping := false } 2000000 2000001
          .fetchErr).state.lastScrapeTime = some 2000001 ∧
       (getOrScrapeData { lastScrapeTime := some 0, isScraping := false } 2000000 2000001
          .fetchErr).result = .ok (n+1))) :=
  ⟨by decide,
    claim8_exit_paths { lastScrapeTime := some 0, isScraping := false } 2000000 2000001
      .fetchErr (by decide) (by decide)⟩

/-- Two characters with the same numeric value are the same character. -/
theorem char_eq_of_toNat_eq {a b : Char} (h : a.toNat = b.toNat) : a = b :=
  Char.ofNat_toNat a ▸ Char.ofNat_toNat b ▸ h ▸ rfl

/-- The code-unit comparison is asymmetric. -/
theorem lexLt_asymm : ∀ (a b : List Char), lexLt a b = true → lexLt b a = false
  | [], [], h => by simp [lexLt] at h
  | [], _ :: _, _ => rfl
  | _ :: _, [], h => by simp [lexLt] at h
  | a :: as, b :: bs, h => by
    rw [lexLt] at h
    rw [lexLt]
    by_cases hab : a.toNat < b.toNat
    · rw [if_neg (by omega), if_pos hab]
    · rw [if_neg hab] at h
      by_cases hba : b.toNat < a.toNat
      · rw [if_pos hba] at h; exact absurd h (by simp)
      · rw [if_neg hba] at h
        rw [if_neg hba, if_neg hab]
        exact lexLt_asymm as bs h

/-- Two lists of characters neither of which precedes the other are equal. -/
theorem lexLt_antisymm : ∀ (a b : List Char), lexLt a b = false → lexLt b a = false → a = b
  | [], [], _, _ => rfl
  | [], _ :: _, h, _ => by simp [lexLt] at h
  | _ :: _, [], _, h => by simp [lexLt] at h
  | a :: as, b :: bs, h, h' => by
    rw [lexLt] at h h'
    by_cases hab : a.toNat < b.toNat
    · rw [if_pos hab] at h; exact absurd h (by simp)
    · rw [if_neg hab] at h
      by_cases hba : b.toNat < a.toNat
      · rw [if_pos hba] at h'; exact absurd h' (by simp)
      · rw [if_neg hba] at h
        rw [if_neg hba, if_neg hab] at h'
        have hEq : a = b := char_eq_of_toNat_eq (by omega)
        rw [hEq, lexLt_antisymm as bs h h']

/-- The sorted joined pair does not depend on the argument order. -/
theorem normalizedPair_comm (a b : String) : normalizedPair a b = normalizedPair b a := by
  unfold normalizedPair
  cases h1 : lexLt (normalizeTeam b).data (normalizeTeam a).data with
  | true =>
    rw [if_pos h1, if_neg (by rw [lexLt_asymm _ _ h1]; simp)]
  | false =>
    rw [if_neg (by rw [h1]; simp)]
    cases h2 : lexLt (normalizeTeam a).data (normalizeTeam b).data with
    | true => rw [if_pos h2]
    | false =>
      rw [if_neg (by rw [h2]; simp)]
      have : (normalizeTeam b).data = (normalizeTeam a).data := lexLt_antisymm _ _ h1 h2
      have hst : normalizeTeam b = normalizeTeam a := by
        cases hb : normalizeTeam b; cases ha : normalizeTeam a
        simp_all
      rw [hst]

/-- C9: both generators are order-independent in the team names, and the
oddschecker generator is a pure function of the normalised pair; but the
on-demand copy appends the last six digits of the current time, so two calls
with the same pair at different instants yield different identifiers —
the divergence the specification flags as the match-id inconsistency. -/
theorem claim9_match_id :
    (∀ a b : String, generateMatchId a b = generateMatchId b a) ∧
    (∀ a b : String, ∀ t : ℕ,
      generateMatchIdOnDemand a b t = generateMatchIdOnDemand b a t) ∧
    generateMatchId "Liverpool" "Arsenal" = "match_arsenal_liverpool" ∧
    generateMatchIdOnDemand "Liverpool" "Arsenal" 1760000000000 =
      "match_arsenal_liverpool_000000" ∧
    generateMatchIdOnDemand "Liverpool" "Arsenal" 1760000000001 =
      "match_arsenal_liverpool_000001" ∧
    generateMatchIdOnDemand "Liverpool" "Arsenal" 1760000000000 ≠
      generateMatchIdOnDemand "Liverpool" "Arsenal" 1760000000001 := by
  refine ⟨?_, ?_, by decide, by decide, by decide, by decide⟩
  · intro a b
    rw [generateMatchId, generateMatchId, normalizedPair_comm]
  · intro a b t
    rw [generateMatchIdOnDemand, generateMatchIdOnDemand, normalizedPair_comm]

/-- Every interleaving step preserves mutual exclusion and the per-caller
fetch accounting. -/
theorem step_inv {n : ℕ} {s s' : Sys n} (h : Step s s')
    (hm : MutexInv s) (hc : CountInv s) : MutexInv s' ∧ CountInv s' := by
  obtain ⟨hm1, hm2⟩ := hm
  cases h with
  | tick d => exact ⟨⟨hm1, hm2⟩, hc⟩
  | entryFresh i hpc hf =>
    refine ⟨⟨?_, ?_⟩, ?_⟩
    · intro k hk
      by_cases hki : k = i
      · subst hki
        simp [Function.update_same, inRegion] at hk
      · simp only [Function.update_noteq hki] at hk
        exact hm1 k hk
    · intro k j hk hj
      by_cases hki : k = i
      · subst hki
        simp [Function.update_same, inRegion] at hk
      · by_cases hji : j = i
        · subst hji
          simp [Function.update_same, inRegion] at hj
        · simp only [Function.update_noteq hki] at hk
          simp only [Function.update_noteq hji] at hj
          exact hm2 k j hk hj
    · intro k
      by_cases hki : k = i
      · subst hki
        have hck := hc k
        rw [hpc] at hck
        simp [inRegion, isRefreshExit] at hck
        simp [Function.update_same, inRegion, isRefreshExit] <;> omega
      · simp only [Function.update_noteq hki]
        exact hc k
  | entryWait i hpc hf hs =>
    refine ⟨⟨?_, ?_⟩, ?_⟩
    · intro k hk
      by_cases hki : k = i
      · subst hki
        simp [Function.update_same, inRegion] at hk
      · simp only [Function.update_noteq hki] at hk
        exact hm1 k hk
    · intro k j hk hj
      by_cases hki : k = i
      · subst hki
        simp [Function.update_same, inRegion] at hk
      · by_cases hji : j = i
        · subst hji
          simp [Function.update_same, inRegion] at hj
        · simp only [Function.update_noteq hki] at hk
          simp only [Function.update_noteq hji] at hj
          exact hm2 k j hk hj
    · intro k
      by_cases hki : k = i
      · subst hki
        have hck := hc k
        rw [hpc] at hck
        simp [inRegion, isRefreshExit] at hck
        simp [Function.update_same, inRegion, isRefreshExit] <;> omega
      · simp only [Function.update_noteq hki]
        exact hc k
  | entryFetch i hpc hf hs =>
    have hnone : ∀ k, inRegion (s.pcs k) = false := by
      intro k
      by_contra hk
      have := hm1 k (by simpa using hk)
      rw [hs] at this
      exact absurd this (by simp)
    refine ⟨⟨?_, ?_⟩, ?_⟩
    · intro k hk
      rfl
    · intro k j hk hj
      by_cases hki : k = i
      · by_cases hji : j = i
        · rw [hki, hji]
        · simp only [Function.update_noteq hji] at hj
          rw [hnone j] at hj
          exact absurd hj (by simp)
      · simp only [Function.update_noteq hki] at hk
        rw [hnone k] at hk
        exact absurd hk (by simp)
    · intro k
      by_cases hki : k = i
      · subst hki
        have hck := hc k
        rw [hpc] at hck
        simp [inRegion, isRefreshExit] at hck
        simp [Function.update_same, inRegion, isRefreshExit] <;> omega
      · simp only [Function.update_noteq hki, Function.update_noteq hki]
        exact hc k
  | waitPoll i hpc hs => exact ⟨⟨hm1, hm2⟩, hc⟩
  | waitDone i hpc =>
    refine ⟨⟨?_, ?_⟩, ?_⟩
    · intro k hk
      by_cases hki : k = i
      · subst hki
        simp [Function.update_same, inRegion] at hk
      · simp only [Function.update_noteq hki] at hk
        exact hm1 k hk
    · intro k j hk hj
      by_cases hki : k = i
      · subst hki
        simp [Function.update_same, inRegion] at hk
      · by_cases hji : j = i
        · subst hji
          simp [Function.update_same, inRegion] at hj
        · simp only [Function.update_noteq hki] at hk
          simp only [Function.update_noteq hji] at hj
          exact hm2 k j hk hj
    · intro k
      by_cases hki : k = i
      · subst hki
        have hck := hc k
        rw [hpc] at hck
        simp [inRegion, isRefreshExit] at hck
        simp [Function.update_same, inRegion, isRefreshExit] <;> omega
      · simp only [Function.update_noteq hki]
        exact hc k
  | fetchOk i hpc =>
    have hsc : s.scraping = true := hm1 i (by rw [hpc]; rfl)
    have hot : ∀ m, inRegion (Function.update s.pcs i PC.storing m) = true →
        inRegion (s.pcs m) = true := by
      intro m hm
      by_cases hmi : m = i
      · subst hmi; rw [hpc]; rfl
      · simp only [Function.update_noteq hmi] at hm
        exact hm
    refine ⟨⟨?_, ?_⟩, ?_⟩
    · intro k hk
      exact hsc
    · intro k j hk hj
      exact hm2 k j (hot k hk) (hot j hj)
    · intro k
      by_cases hki : k = i
      · subst hki
        have hck := hc k
        rw [hpc] at hck
        simp [inRegion, isRefreshExit] at hck
        simp [Function.update_same, inRegion, isRefreshExit] <;> omega
      · simp only [Function.update_noteq hki]
        exact hc k
  | fetchEmpty i hpc =>
    refine ⟨⟨?_, ?_⟩, ?_⟩
    · intro k hk
      by_cases hki : k = i
      · subst hki
        simp [Function.update_same, inRegion] at hk
      · simp only [Function.update_noteq hki] at hk
        exact absurd (hm2 k i hk (by rw [hpc]; rfl)) hki
    · intro k j hk hj
      by_cases hki : k = i
      · subst hki
        simp [Function.update_same, inRegion] at hk
      · simp only [Function.update_noteq hki] at hk
        exact absurd (hm2 k i hk (by rw [hpc]; rfl)) hki
    · intro k
      by_cases hki : k = i
      · subst hki
        have hck := hc k
        rw [hpc] at hck
        simp [inRegion, isRefreshExit] at hck
        simp [Function.update_same, inRegion, isRefreshExit] <;> omega
      · simp only [Function.update_noteq hki]
        exact hc k
  | fetchFail i hpc =>
    refine ⟨⟨?_, ?_⟩, ?_⟩
    · intro k hk
      by_cases hki : k = i
      · subst hki
        simp [Function.update_same, inRegion] at hk
      · simp only [Function.update_noteq hki] at hk
        exact absurd (hm2 k i hk (by rw [hpc]; rfl)) hki
    · intro k j hk hj
      by_cases hki : k = i
      · subst hki
        simp [Function.update_same, inRegion] at hk
      · simp only [Function.update_noteq hki] at hk
        exact absurd (hm2 k i hk (by rw [hpc]; rfl)) hki
    · intro k
      by_cases hki : k = i
      · subst hki
        have hck := hc k
        rw [hpc] at hck
        simp [inRegion, isRefreshExit] at hck
        simp [Function.update_same, inRegion, isRefreshExit] <;> omega
      · simp only [Function.update_noteq hki]
        exact hc k
  | storeOk i hpc =>
    have hsc : s.scraping = true := hm1 i (by rw [hpc]; rfl)
    have hot : ∀ m, inRegion (Function.update s.pcs i PC.detecting m) = true →
        inRegion (s.pcs m) = true := by
      intro m hm
      by_cases hmi : m = i
      · subst hmi; rw [hpc]; rfl
      · simp only [Function.update_noteq hmi] at hm
        exact hm
    refine ⟨⟨?_, ?_⟩, ?_⟩
    · intro k hk
      exact hsc
    · intro k j hk hj
      exact hm2 k j (hot k hk) (hot j hj)
    · intro k
      by_cases hki : k = i
      · subst hki
        have hck := hc k
        rw [hpc] at hck
        simp [inRegion, isRefreshExit] at hck
        simp [Function.update_same, inRegion, isRefreshExit] <;> omega
      · simp only [Function.update_noteq hki]
        exact hc k
  | storeFail i hpc =>
    refine ⟨⟨?_, ?_⟩, ?_⟩
    · intro k hk
      by_cases hki : k = i
      · subst hki
        simp [Function.update_same, inRegion] at hk
      · simp only [Function.update_noteq hki] at hk
        exact absurd (hm2 k i hk (by rw [hpc]; rfl)) hki
    · intro k j hk hj
      by_cases hki : k = i
      · subst hki
        simp [Function.update_same, inRegion] at hk
      · simp only [Function.update_noteq hki] at hk
        exact absurd (hm2 k i hk (by rw [hpc]; rfl)) hki
    · intro k
      by_cases hki : k = i
      · subst hki
        have hck := hc k
        rw [hpc] at hck
        simp [inRegion, isRefreshExit] at hck
        simp [Function.update_same, inRegion, isRefreshExit] <;> omega
      · simp only [Function.update_noteq hki]
        exact hc k
  | detectDone i m hpc =>
    refine ⟨⟨?_, ?_⟩, ?_⟩
    · intro k hk
      by_cases hki : k = i
      · subst hki
        simp [Function.update_same, inRegion] at hk
      · simp only [Function.update_noteq hki] at hk
        exact absurd (hm2 k i hk (by rw [hpc]; rfl)) hki
    · intro k j hk hj
      by_cases hki : k = i
      · subst hki
        simp [Function.update_same, inRegion] at hk
      · simp only [Function.update_noteq hki] at hk
        exact absurd (hm2 k i hk (by rw [hpc]; rfl)) hki
    · intro k
      by_cases hki : k = i
      · subst hki
        have hck := hc k
        rw [hpc] at hck
        simp [inRegion, isRefreshExit] at hck
        simp [Function.update_same, inRegion, isRefreshExit] <;> omega
      · simp only [Function.update_noteq hki]
        exact hc k

/-- The invariants hold in every reachable configuration. -/
theorem reach_inv {n : ℕ} {l0 : Option ℕ} {t0 : ℕ} {s : Sys n}
    (h : Reach (initSys n l0 t0) s) : MutexInv s ∧ CountInv s := by
  induction h with
  | refl =>
    constructor
    · exact ⟨fun i h => by simp [initSys, inRegion] at h,
        fun i j hi hj => by simp [initSys, inRegion] at hi⟩
    · intro i; simp [initSys, inRegion, isRefreshExit]
  | step s₂ s₃ hr hst ih => exact step_inv hst ih.1 ih.2

/-- The staleness test ignores the in-flight flag. -/
theorem needsFreshData_flag (l : Option ℕ) (b b' : Bool) (now : ℕ) :
    needsFreshData { lastScrapeTime := l, isScraping := b } now =
    needsFreshData { lastScrapeTime := l, isScraping := b' } now := by
  cases l <;> rfl

/-- Stale data stays stale as the clock advances (the timestamp can only be
set by a completing refresh). -/
theorem staleAt_mono (l : Option ℕ) (t d : ℕ) (h : staleAt l t = true) :
    staleAt l (t + d) = true := by
  cases l with
  | none => rfl
  | some t0 =>
    simp only [staleAt, needsFreshData, decide_eq_true_eq] at h ⊢
    omega

/-- The burst invariant is preserved by every completion-free step. -/
theorem stepA_burst {n : ℕ} {l0 : Option ℕ} {s s' : Sys n}
    (h : StepA s s') (hb : BurstInv l0 s) : BurstInv l0 s' := by
  obtain ⟨hstep, hpres⟩ := h
  obtain ⟨hlast, hstale, hbr⟩ := hb
  cases hstep with
  | tick d =>
    exact ⟨hlast, staleAt_mono l0 s.now d hstale, hbr⟩
  | entryFresh i hpc hf =>
    rw [needsFreshData_flag s.last s.scraping false, hlast] at hf
    rw [show staleAt l0 s.now =
      needsFreshData { lastScrapeTime := l0, isScraping := false } s.now from rfl] at hstale
    rw [hstale] at hf
    exact absurd hf (by simp)
  | entryWait i hpc hf hs =>
    rcases hbr with ⟨hsc, _, _⟩ | ⟨hsc, hf1, hall⟩
    · rw [hsc] at hs; exact absurd hs (by simp)
    · refine ⟨hlast, hstale, Or.inr ⟨hsc, hf1, ?_⟩⟩
      intro k
      by_cases hki : k = i
      · subst hki; simp [Function.update_same]
      · simp only [Function.update_noteq hki]
        exact hall k
  | entryFetch i hpc hf hs =>
    rcases hbr with ⟨hsc, hf0, hall⟩ | ⟨hsc, _, _⟩
    · refine ⟨hlast, hstale, Or.inr ⟨rfl, by simp [hf0], ?_⟩⟩
      intro k
      by_cases hki : k = i
      · subst hki; simp [Function.update_same, inRegion]
      · simp only [Function.update_noteq hki]
        exact Or.inl (hall k)
    · rw [hsc] at hs; exact absurd hs (by simp)
  | waitPoll i hpc hs => exact ⟨hlast, hstale, hbr⟩
  | waitDone i hpc =>
    rcases hbr with ⟨_, _, hall⟩ | ⟨hsc, hf1, hall⟩
    · rw [hall i] at hpc; exact absurd hpc (by simp)
    · refine ⟨hlast, hstale, Or.inr ⟨hsc, hf1, ?_⟩⟩
      intro k
      by_cases hki : k = i
      · subst hki; simp [Function.update_same]
      · simp only [Function.update_noteq hki]
        exact hall k
  | fetchOk i hpc =>
    rcases hbr with ⟨_, _, hall⟩ | ⟨hsc, hf1, hall⟩
    · rw [hall i] at hpc; exact absurd hpc (by simp)
    · refine ⟨hlast, hstale, Or.inr ⟨hsc, hf1, ?_⟩⟩
      intro k
      by_cases hki : k = i
      · subst hki; simp [Function.update_same, inRegion]
      · simp only [Function.update_noteq hki]
        exact hall k
  | fetchEmpty i hpc =>
    rcases hbr with ⟨_, _, hall⟩ | ⟨hsc, _, _⟩
    · rw [hall i] at hpc; exact absurd hpc (by simp)
    · exact absurd (hpres hsc) (by simp)
  | fetchFail i hpc =>
    rcases hbr with ⟨_, _, hall⟩ | ⟨hsc, _, _⟩
    · rw [hall i] at hpc; exact absurd hpc (by simp)
    · exact absurd (hpres hsc) (by simp)
  | storeOk i hpc =>
    rcases hbr with ⟨_, _, hall⟩ | ⟨hsc, hf1, hall⟩
    · rw [hall i] at hpc; exact absurd hpc (by simp)
    · refine ⟨hlast, hstale, Or.inr ⟨hsc, hf1, ?_⟩⟩
      intro k
      by_cases hki : k = i
      · subst hki; simp [Function.update_same, inRegion]
      · simp only [Function.update_noteq hki]
        exact hall k
  | storeFail i hpc =>
    rcases hbr with ⟨_, _, hall⟩ | ⟨hsc, _, _⟩
    · rw [hall i] at hpc; exact absurd hpc (by simp)
    · exact absurd (hpres hsc) (by simp)
  | detectDone i m hpc =>
    rcases hbr with ⟨_, _, hall⟩ | ⟨hsc, _, _⟩
    · rw [hall i] at hpc; exact absurd hpc (by simp)
    · exact absurd (hpres hsc) (by simp)

/-- The burst invariant holds throughout the arrival phase. -/
theorem reachA_burst {n : ℕ} {l0 : Option ℕ} {t0 : ℕ} {s : Sys n}
    (h : ReachA (initSys n l0 t0) s) (hstale : staleAt l0 t0 = true) : BurstInv l0 s := by
  induction h with
  | refl => exact ⟨rfl, hstale, Or.inl ⟨rfl, rfl, fun i => rfl⟩⟩
  | step s₂ s₃ hr hst ih => exact stepA_burst hst ih

/-- Once every caller has performed its entry check, no further step invokes
the fetch collaborator. -/
theorem noentry_step {n : ℕ} {s s' : Sys n} (h : Step s s')
    (hne : ∀ i, s.pcs i ≠ PC.entry) :
    (∀ i, s'.pcs i ≠ PC.entry) ∧ s'.fetches = s.fetches := by
  cases h with
  | tick d => exact ⟨hne, rfl⟩
  | entryFresh i hpc hf => exact absurd hpc (hne i)
  | entryWait i hpc hf hs => exact absurd hpc (hne i)
  | entryFetch i hpc hf hs => exact absurd hpc (hne i)
  | waitPoll i hpc hs => exact ⟨hne, rfl⟩
  | waitDone i hpc =>
    refine ⟨fun k => ?_, rfl⟩
    by_cases hki : k = i
    · subst hki; simp [Function.update_same]
    · simp only [Function.update_noteq hki]; exact hne k
  | fetchOk i hpc =>
    refine ⟨fun k => ?_, rfl⟩
    by_cases hki : k = i
    · subst hki; simp [Function.update_same]
    · simp only [Function.update_noteq hki]; exact hne k
  | fetchEmpty i hpc =>
    refine ⟨fun k => ?_, rfl⟩
    by_cases hki : k = i
    · subst hki; simp [Function.update_same]
    · simp only [Function.update_noteq hki]; exact hne k
  | fetchFail i hpc =>
    refine ⟨fun k => ?_, rfl⟩
    by_cases hki : k = i
    · subst hki; simp [Function.update_same]
    · simp only [Function.update_noteq hki]; exact hne k
  | storeOk i hpc =>
    refine ⟨fun k => ?_, rfl⟩
    by_cases hki : k = i
    · subst hki; simp [Function.update_same]
    · simp only [Function.update_noteq hki]; exact hne k
  | storeFail i hpc =>
    refine ⟨fun k => ?_, rfl⟩
    by_cases hki : k = i
    · subst hki; simp [Function.update_same]
    · simp only [Function.update_noteq hki]; exact hne k
  | detectDone i m hpc =>
    refine ⟨fun k => ?_, rfl⟩
    by_cases hki : k = i
    · subst hki; simp [Function.update_same]
    · simp only [Function.update_noteq hki]; exact hne k

/-- C2: single-flight.  In every reachable configuration at most one caller
is inside the refresh region (never two fetches in flight) and each call
invokes the fetch collaborator at most once — exactly once when it takes the
refresh path and never when it no-ops (cached or waited).  And for N
concurrent callers arriving while the data is stale — all entry checks
happen before the in-flight refresh completes — the fetch collaborator is
invoked exactly once, no matter how execution continues afterwards. -/
theorem claim2_single_flight :
    (∀ (n : ℕ) (l0 : Option ℕ) (t0 : ℕ) (s : Sys n), Reach (initSys n l0 t0) s →
       (∀ i j, inRegion (s.pcs i) = true → inRegion (s.pcs j) = true → i = j) ∧
       (∀ i, inRegion (s.pcs i) = true → s.scraping = true) ∧
       (∀ i, s.pfetch i ≤ 1) ∧
       (∀ i, (s.pcs i = PC.entry ∨ s.pcs i = PC.waiting ∨ s.pcs i = PC.done .waited ∨
           (∃ a, s.pcs i = PC.done (.cached a))) → s.pfetch i = 0) ∧
       (∀ i, (inRegion (s.pcs i) = true ∨ isRefreshExit (s.pcs i) = true) → s.pfetch i = 1)) ∧
    (∀ (n : ℕ) (l0 : Option ℕ) (t0 : ℕ) (s1 s2 : Sys n), 0 < n →
       staleAt l0 t0 = true → ReachA (initSys n l0 t0) s1 →
       (∀ i, s1.pcs i ≠ PC.entry) → Reach s1 s2 → s2.fetches = 1) := by
  constructor
  · intro n l0 t0 s h
    obtain ⟨⟨hm1, hm2⟩, hcnt⟩ := reach_inv h
    refine ⟨hm2, hm1, ?_, ?_, ?_⟩
    · intro i
      rw [hcnt i]
      split <;> omega
    · intro i hcase
      rw [hcnt i]
      rcases hcase with h' | h' | h' | ⟨a, h'⟩ <;> rw [h'] <;> simp [inRegion, isRefreshExit]
    · intro i hcase
      rw [hcnt i]
      rcases hcase with h' | h' <;> simp [h']
  · intro n l0 t0 s1 s2 hn hstale h1 hne h2
    have hb := reachA_burst h1 hstale
    rcases hb.2.2 with ⟨_, _, hall⟩ | ⟨_, hf1, _⟩
    · exact absurd (hall ⟨0, hn⟩) (hne ⟨0, hn⟩)
    · have key : (∀ i, s2.pcs i ≠ PC.entry) ∧ s2.fetches = s1.fetches := by
        induction h2 with
        | refl => exact ⟨hne, rfl⟩
        | step s₂ s₃ hr hst ih =>
          obtain ⟨ihne, ihf⟩ := ih
          obtain ⟨hne3, hf3⟩ := noentry_step hst ihne
          exact ⟨hne3, by rw [hf3, ihf]⟩
      rw [key.2, hf1]


/-- C2 witness: two concurrent callers from an empty cache; the first
fetches, the second waits; the burst theorem yields exactly one fetch. -/
theorem claim2_witness :
    staleAt none 0 = true ∧ (∀ i : Fin 2, burstS1.pcs i ≠ PC.entry) ∧
    burstS1.fetches = 1 := by
  have hra : ReachA burstInit2 burstS1 :=
    ReachA.step burstInit2 burstMid burstS1
      (ReachA.step burstInit2 burstInit2 burstMid (ReachA.refl burstInit2)
        ⟨Step.entryFetch burstInit2 0 rfl rfl rfl, fun h => rfl⟩)
      ⟨Step.entryWait burstMid 1 (by decide) rfl rfl, fun h => rfl⟩
  refine ⟨rfl, by decide, ?_⟩
  exact claim2_single_flight.2 2 none 0 burstS1 burstS1 (by norm_num) rfl hra (by decide)
    (Reach.refl burstS1)


end ArbEdge
